import Mathlib

/-!
Shallow embedding of the core of the `mcp-zentao-11-3` client
(`ZentaoLegacyAPI` in `src/unnamed/part_000` and the image batch
downloader in `src/src/utils/imageDownloader.ts`), together with proofs
about the embedded operations: the search tokenizer/scorer, the
date-range filter, the session-expiry retry logic, the bounded page
aggregation loops and the image download pipeline.

Strings are modelled by Lean `String` (a list of unicode scalar values,
as in JavaScript); JavaScript `toLowerCase` is modelled by ASCII case
folding (`lowerStr`), which agrees with it on every string appearing in
the source's domain (ASCII plus CJK, which has no case).
-/

/-- `String.prototype.includes`: is `pat` a contiguous substring of `hay`?
`isPrefixList pat hay` checks that `pat` starts `hay`. -/
def isPrefixList : List Char → List Char → Bool
  | [], _ => true
  | _ :: _, [] => false
  | p :: ps, h :: hs => p == h && isPrefixList ps hs

/-- `hasSub hay pat` = JavaScript `hay.includes(pat)` on char lists. -/
def hasSub : List Char → List Char → Bool
  | hay, pat =>
    isPrefixList pat hay ||
      match hay with
      | [] => false
      | _ :: t => hasSub t pat

/-- JavaScript `s.includes(pat)` on strings. -/
def strIncludes (s pat : String) : Bool :=
  hasSub s.data pat.data

/-- JavaScript `toLowerCase`, restricted to ASCII case folding
(`Char.toLower` maps `A`–`Z` to `a`–`z` and fixes everything else). -/
def lowerStr (s : String) : String :=
  String.mk (s.data.map Char.toLower)

/-- Character class `[a-z0-9]` of the regex in `splitKeywords`
(the scanned text is already lower-cased). -/
def isAlnumLower (c : Char) : Bool :=
  (97 ≤ c.toNat && c.toNat ≤ 122) || (48 ≤ c.toNat && c.toNat ≤ 57)

/-- Character class `[一-龥]` of the regex in `splitKeywords`. -/
def isCJKChar (c : Char) : Bool :=
  0x4e00 ≤ c.toNat && c.toNat ≤ 0x9fa5

/-- Global scan of the regex `[a-z0-9]+(?:-[a-z0-9]+)*` over a char
list: greedy, leftmost, non-overlapping matches, in order.  `acc` holds
the reversed portion of the match being built (empty when outside a
match).  A hyphen is consumed into the current match only when a match
is open and the next character is alphanumeric, exactly as the regex
backtracks it away otherwise. -/
def lookaheadAlnum : List Char → Bool
  | d :: _ => isAlnumLower d
  | [] => false

def scanEnglish : List Char → List Char → List (List Char)
  | [], acc => if acc.isEmpty then [] else [acc.reverse]
  | c :: rest, acc =>
    if isAlnumLower c then
      scanEnglish rest (c :: acc)
    else if c == '-' && !acc.isEmpty && lookaheadAlnum rest then
      scanEnglish rest ('-' :: acc)
    else if acc.isEmpty then
      scanEnglish rest []
    else
      acc.reverse :: scanEnglish rest []

/-- `splitKeywords` (src/unnamed/part_000, lines 679–693): lower-cases
the keyword, extracts the matches of `[a-z0-9]+(?:-[a-z0-9]+)*`, then
every CJK character `[一-龥]` as a one-character token, and
falls back to the whole lower-cased keyword when nothing was found. -/
def splitKeywords (keyword : String) : List String :=
  let lowerKeyword := lowerStr keyword
  let englishWords := (scanEnglish lowerKeyword.data []).map (fun l => String.mk l)
  let chineseChars := (lowerKeyword.data.filter isCJKChar).map (fun c => String.mk [c])
  let keywords := englishWords ++ chineseChars
  if keywords.isEmpty then [lowerKeyword] else keywords

/-! ## Search scoring (`calculateMatchScore`, src/unnamed/part_000 lines 753–790) -/

/-- Entity record as produced by the story fetch/detail mapping: the
fields read by the search engine.  Optional fields model JS fields that
may be `undefined` (the code reads them as `story.spec || ''` etc.). -/
structure Story where
  id : Nat
  title : String
  status : String
  spec : Option String
  moduleName : Option String
  productName : Option String
  openedDate : Option String
deriving Repr, DecidableEq

/-- Title tier of `calculateMatchScore`: mutually exclusive branches
100 / 80 / `60 * matched / total`. -/
def titleTierScore (title_lower keyword : String) (keywords : List String) : ℚ :=
  if title_lower = keyword then 100
  else if strIncludes title_lower keyword then 80
  else
    let titleKeywordMatches := (keywords.filter (fun k => strIncludes title_lower k)).length
    if 0 < titleKeywordMatches then
      60 * (titleKeywordMatches : ℚ) / (keywords.length : ℚ)
    else 0

/-- Description tier of `calculateMatchScore`: 40, or
`20 * matched / total` when the description is a non-empty string
(JS truthiness of `spec_lower`). -/
def descTierScore (spec_lower keyword : String) (keywords : List String) : ℚ :=
  if strIncludes spec_lower keyword then 40
  else if spec_lower ≠ "" then
    let specKeywordMatches := (keywords.filter (fun k => strIncludes spec_lower k)).length
    if 0 < specKeywordMatches then
      20 * (specKeywordMatches : ℚ) / (keywords.length : ℚ)
    else 0
  else 0

/-- Module-name / product-name bonus of `calculateMatchScore`:
+10 when either contains the full keyword. -/
def auxBonusScore (moduleName_lower productName_lower keyword : String) : ℚ :=
  if strIncludes moduleName_lower keyword || strIncludes productName_lower keyword then 10
  else 0

/-- `calculateMatchScore(story, keyword, keywords)`: the three `score +=`
blocks of the source are independent addends (the title branches are
mutually exclusive via `else`, as are the description branches);
`keyword` is the already lower-cased search string, `keywords` the token
list from `splitKeywords`. -/
def calculateMatchScore (story : Story) (keyword : String) (keywords : List String) : ℚ :=
  titleTierScore (lowerStr story.title) keyword keywords
    + descTierScore (lowerStr (story.spec.getD "")) keyword keywords
    + auxBonusScore (lowerStr (story.moduleName.getD ""))
        (lowerStr (story.productName.getD "")) keyword

/-! ## Date parsing and the date-range filter
(`parseDate` lines 729–742, `filterByDateRange` lines 701–724) -/

/-- JS truthiness of an optional string (`undefined` and `''` are falsy). -/
def jsTruthyStr : Option String → Bool
  | some s => !(s == "")
  | none => false

/-- JS truthiness of an optional number (`undefined` and `0` are falsy). -/
def jsTruthyNat : Option Nat → Bool
  | some n => !(n == 0)
  | none => false

def isDigitChar (c : Char) : Bool := '0' ≤ c && c ≤ '9'

def digitVal (c : Char) : Nat := c.toNat - 48

/-- Encode a validated calendar date-time as a single number that is
strictly monotone in the lexicographic order of
(year, month, day, hour, minute, second).  `new Date(...)` timestamps
(at a fixed timezone) order date-times in exactly this lexicographic
way, and the source only ever compares the parsed values with `<`/`>`,
so this encoding is a faithful model of those comparisons. -/
def encodeTimestamp (y mo d h mi s : Nat) : Option Nat :=
  if 1 ≤ mo && mo ≤ 12 && 1 ≤ d && d ≤ 31 && h ≤ 23 && mi ≤ 59 && s ≤ 59 then
    some (((((y * 13 + mo) * 32 + d) * 24 + h) * 60 + mi) * 60 + s)
  else none

/-- `parseDate(dateStr)`: accepts `YYYY-MM-DD`,
`YYYY-MM-DD HH:mm:ss` and `YYYY-MM-DDTHH:mm:ss` (the formats the
source documents for `new Date`), `null` (`none`) otherwise. -/
def parseDate (dateStr : String) : Option Nat :=
  match dateStr.data with
  | [y1, y2, y3, y4, '-', mo1, mo2, '-', d1, d2] =>
    if [y1, y2, y3, y4, mo1, mo2, d1, d2].all isDigitChar then
      encodeTimestamp
        (digitVal y1 * 1000 + digitVal y2 * 100 + digitVal y3 * 10 + digitVal y4)
        (digitVal mo1 * 10 + digitVal mo2) (digitVal d1 * 10 + digitVal d2) 0 0 0
    else none
  | [y1, y2, y3, y4, '-', mo1, mo2, '-', d1, d2, sep, h1, h2, ':', mi1, mi2, ':', s1, s2] =>
    if (sep == ' ' || sep == 'T')
        && [y1, y2, y3, y4, mo1, mo2, d1, d2, h1, h2, mi1, mi2, s1, s2].all isDigitChar then
      encodeTimestamp
        (digitVal y1 * 1000 + digitVal y2 * 100 + digitVal y3 * 10 + digitVal y4)
        (digitVal mo1 * 10 + digitVal mo2) (digitVal d1 * 10 + digitVal d2)
        (digitVal h1 * 10 + digitVal h2) (digitVal mi1 * 10 + digitVal mi2)
        (digitVal s1 * 10 + digitVal s2)
    else none
  | _ => none

/-- `filterByDateRange(stories, startDate, endDate)`: returns the input
unchanged when neither bound is (truthily) supplied; otherwise keeps a
story iff its `openedDate` is truthy, parses, and the parsed value is
not `< start` (when `start` parsed) and not `> end` (when `end`
parsed). -/
def filterByDateRange (stories : List Story) (startDate endDate : Option String) : List Story :=
  if !jsTruthyStr startDate && !jsTruthyStr endDate then stories
  else
    let start := if jsTruthyStr startDate then parseDate (startDate.getD "") else none
    let stop := if jsTruthyStr endDate then parseDate (endDate.getD "") else none
    stories.filter fun story =>
      if !jsTruthyStr story.openedDate then false
      else
        match parseDate (story.openedDate.getD "") with
        | none => false
        | some storyDate =>
          (match start with
           | some st => !(storyDate < st)
           | none => true) &&
          (match stop with
           | some en => !(storyDate > en)
           | none => true)

/-! ## Session lifecycle and the expiry-retry request
(`isSessionExpired` lines 94–102, `request` lines 106–136,
`forceReLogin` lines 83–90, `ensureLoggedIn` lines 74–79) -/

/-- A raw axios response body: either an HTML page (a JS string — the
login-redirect page the backend serves on session expiry) or the parsed
JSON envelope `{status, data}`. -/
inductive RespData where
  | html (s : String)
  | envelope (status : String) (data : String)
deriving Repr, DecidableEq

/-- `isSessionExpired(responseData)`: string bodies are sniffed for
login-redirect markers; non-string (JSON object) bodies are never
classified as expired. -/
def isSessionExpired : RespData → Bool
  | .html s =>
    strIncludes s "user-login" || strIncludes s "self.location" || strIncludes s "<script>"
  | .envelope _ _ => false

structure SessionState where
  sessionId : Option String
  logins : Nat
  forcedRelogins : Nat
deriving Repr, DecidableEq

/-- `login()` modelled as succeeding and storing a session id (the
scenarios embedded here exercise the expiry-retry path, not login
failure). -/
def login (st : SessionState) : SessionState :=
  { st with sessionId := some "sid", logins := st.logins + 1 }

/-- `ensureLoggedIn()`: logs in only when no session id is held. -/
def ensureLoggedIn (st : SessionState) : SessionState :=
  if st.sessionId.isNone then login st else st

/-- `forceReLogin()`: clears the session id and logs in again;
`forcedRelogins` counts its invocations. -/
def forceReLogin (st : SessionState) : SessionState :=
  let st1 := login { st with sessionId := none }
  { st1 with forcedRelogins := st1.forcedRelogins + 1 }

inductive RequestOutcome where
  | ok (payload : String)
  | sessionExpiredError
  | requestError
  | transportError
deriving Repr, DecidableEq

/-- `request(url, params, retried)`: the scripted list holds the bodies
the transport returns to successive attempts of this one logical
request.  On an expired body: first attempt forces a re-login and
retries once (`retried = true`); a second expired body raises the
session error.  Otherwise the `{status:'success', data}` envelope is
unwrapped, anything else raises a request error.  An empty script
models a transport failure. -/
def request : List RespData → Bool → SessionState → RequestOutcome × SessionState
  | [], _, st => (.transportError, ensureLoggedIn st)
  | r :: rest, retried, st =>
    let st1 := ensureLoggedIn st
    if isSessionExpired r then
      if !retried then
        request rest true (forceReLogin st1)
      else (.sessionExpiredError, st1)
    else
      match r with
      | .envelope s d => if s == "success" then (.ok d, st1) else (.requestError, st1)
      | .html _ => (.requestError, st1)

/-! ## Paginated aggregation
(`getProductBugs` lines 277–345, `getProductStories` lines 404–497,
`getProductTestCases` lines 829–903 — the three share one loop shape) -/

structure Pager where
  recTotal : Nat
  recPerPage : Nat
  pageID : Nat
deriving Repr, DecidableEq

structure PageData (α : Type) where
  recs : List α
  pager : Option Pager
deriving Repr, DecidableEq

def ceilDivNat (a b : Nat) : Nat := (a + b - 1) / b

/-- `currentPage < Math.ceil(recTotal / recPerPage) && recs.length > 0`,
with the JavaScript corner cases of `recPerPage = 0`: the float division
yields `Infinity` when `recTotal > 0` (so `currentPage < totalPages` is
true) and `NaN` when `recTotal = 0` (so it is false). -/
def pagerHasMore (pg : Pager) (currentPage : Nat) (recCount : Nat) : Bool :=
  if pg.recPerPage == 0 then
    if pg.recTotal == 0 then false else decide (0 < recCount)
  else
    decide (currentPage < ceilDivNat pg.recTotal pg.recPerPage) && decide (0 < recCount)

/-- The `while (hasMore)` aggregation loop shared by the three listing
fetchers: request page `currentPage`, append its records, recompute
`hasMore` from the pager (absent pager means stop), increment the page
and break once the page counter passes the hard cap of 100.  `fuel`
exists only to present the loop to the termination checker as a
structural recursion: `fetchAllPages` starts it at 100 and the loop's
own cap `currentPage + 1 ≤ 100` always fires strictly before `fuel`
reaches 0, so the fuel branch is unreachable from `fetchAllPages`.
The second component of the result counts issued page requests. -/
def fetchPages (server : Nat → PageData α) : Nat → Nat → List α → Nat → List α × Nat
  | 0, _, acc, count => (acc, count)
  | fuel + 1, currentPage, acc, count =>
    let page := server currentPage
    let acc2 := acc ++ page.recs
    let count2 := count + 1
    let hasMore :=
      match page.pager with
      | some pg => pagerHasMore pg currentPage page.recs.length
      | none => false
    if hasMore && decide (currentPage + 1 ≤ 100) then
      fetchPages server fuel (currentPage + 1) acc2 count2
    else (acc2, count2)

def fetchAllPages (server : Nat → PageData α) : List α × Nat :=
  fetchPages server 100 1 [] 0

structure BugRec where
  id : Nat
  status : String
deriving Repr, DecidableEq

structure CaseRec where
  id : Nat
  status : String
deriving Repr, DecidableEq

/-- browseType/param selection of `getProductBugs` (lines 282–298) and
`getProductTestCases` (lines 834–850): module wins, then a
non-`'all'` status, then `'all'`; JS truthiness throughout. -/
def bugBrowseSelector (status : Option String) (moduleId : Option Nat) : String × Nat :=
  if jsTruthyNat moduleId then ("byModule", moduleId.getD 0)
  else if jsTruthyStr status && !(status.getD "" == "all") then (status.getD "", 0)
  else ("all", 0)

/-- `getProductBugs(productId, status, moduleId)` for a fixed product:
`server browseType param pageID` models the listing endpoint
`/bug-browse-{productId}-0-{browseType}-{param}-id_desc-0-100-{pageID}.json`.
Aggregates all pages for the single selector, then applies the local
post-hoc status filter exactly when both a module id and a status other
than `'all'` were supplied. -/
def getProductBugs (server : String → Nat → Nat → PageData BugRec)
    (status : Option String) (moduleId : Option Nat) : List BugRec :=
  let sel := bugBrowseSelector status moduleId
  let allBugs := (fetchAllPages (fun p => server sel.1 sel.2 p)).1
  if jsTruthyNat moduleId && jsTruthyStr status && !(status.getD "" == "all") then
    allBugs.filter (fun b => b.status == status.getD "")
  else allBugs

/-- `getProductTestCases` (lines 829–903): same selector and local
filter as the bug fetcher, over the testcase listing endpoint. -/
def getProductTestCases (server : String → Nat → Nat → PageData CaseRec)
    (status : Option String) (moduleId : Option Nat) : List CaseRec :=
  let sel := bugBrowseSelector status moduleId
  let allCases := (fetchAllPages (fun p => server sel.1 sel.2 p)).1
  if jsTruthyNat moduleId && jsTruthyStr status && !(status.getD "" == "all") then
    allCases.filter (fun c => c.status == status.getD "")
  else allCases

/-- browseType/param selection of `getProductStories` (lines 420–452):
module wins; otherwise `browseType` starts as `'unclosed'` and every
branch of the status switch (including `default`) re-assigns
`'unclosed'`. -/
def storyBrowseSelector (status : Option String) (moduleId : Option Nat) : String × Nat :=
  if jsTruthyNat moduleId then ("byModule", moduleId.getD 0)
  else
    match status with
    | none => ("unclosed", 0)
    | some s =>
      if s == "" then ("unclosed", 0)
      else
        match s with
        | "all" => ("unclosed", 0)
        | "active" => ("unclosed", 0)
        | "draft" => ("unclosed", 0)
        | "closed" => ("unclosed", 0)
        | "changed" => ("unclosed", 0)
        | _ => ("unclosed", 0)

/-- `getProductStories(productId, status, moduleId)` for a fixed
product, over `/product-browse-...-{browseType}-{param}-...-{pageID}.json`. -/
def getProductStories (server : String → Nat → Nat → PageData Story)
    (status : Option String) (moduleId : Option Nat) : List Story :=
  let sel := storyBrowseSelector status moduleId
  let allStories := (fetchAllPages (fun p => server sel.1 sel.2 p)).1
  if jsTruthyNat moduleId && jsTruthyStr status && !(status.getD "" == "all") then
    allStories.filter (fun s => s.status == status.getD "")
  else allStories

/-- A 250-record source served 100 per page with a consistent pager. -/
def server250 : Nat → PageData Nat := fun p =>
  { recs := ((List.range 250).drop ((p - 1) * 100)).take 100,
    pager := some { recTotal := 250, recPerPage := 100, pageID := p } }

/-- An adversarial source that always reports more pages. -/
def serverInconsistent : Nat → PageData Nat := fun p =>
  { recs := [p], pager := some { recTotal := 10, recPerPage := 100, pageID := p } }

def serverEndless : Nat → PageData Nat := fun p =>
  { recs := [p], pager := some { recTotal := 1000000, recPerPage := 1, pageID := p } }

/-! ## Image batch download
(`downloadImages` / `downloadImageWithTimeout` / `detectMimeType` in
src/src/utils/imageDownloader.ts) -/

/-- Behavior of one URL's underlying transfer
(`zentaoApi.downloadStoryImage(url)`): it resolves with the image bytes
after some delay, rejects after some delay, or never settles. -/
inductive Transfer where
  | resolves (delayMs : Nat) (payload : List Nat)
  | rejects (delayMs : Nat) (msg : String)
  | never
deriving Repr, DecidableEq

structure DownloadedImage where
  url : String
  base64 : Option String
  mimeType : Option String
  size : Option Nat
  success : Bool
  error : Option String
deriving Repr, DecidableEq

/-- `detectMimeType(buffer)`: sniff JPEG / GIF / PNG signatures from the
first two bytes, defaulting to PNG (out-of-range reads are `undefined`
in JS and match no signature). -/
def detectMimeType (buffer : List Nat) : String :=
  if buffer.get? 0 == some 0xFF && buffer.get? 1 == some 0xD8 then "image/jpeg"
  else if buffer.get? 0 == some 0x47 && buffer.get? 1 == some 0x49 then "image/gif"
  else if buffer.get? 0 == some 0x89 && buffer.get? 1 == some 0x50 then "image/png"
  else "image/png"

/-- RFC 4648 alphabet used by `Buffer.toString('base64')`. -/
def base64Char (n : Nat) : Char :=
  if n < 26 then Char.ofNat (65 + n)
  else if n < 52 then Char.ofNat (97 + (n - 26))
  else if n < 62 then Char.ofNat (48 + (n - 52))
  else if n == 62 then '+'
  else '/'

/-- `Buffer.toString('base64')` on a byte list (bytes < 256). -/
def base64Encode : List Nat → List Char
  | [] => []
  | [a] => [base64Char (a / 4), base64Char (a % 4 * 16), '=', '=']
  | [a, b] => [base64Char (a / 4), base64Char (a % 4 * 16 + b / 16), base64Char (b % 16 * 4), '=']
  | a :: b :: c :: rest =>
    base64Char (a / 4) :: base64Char (a % 4 * 16 + b / 16) ::
      base64Char (b % 16 * 4 + c / 64) :: base64Char (c % 64) :: base64Encode rest

/-- The failure value the timeout timer resolves with. -/
def timeoutResult (url : String) (timeoutMs : Nat) : DownloadedImage :=
  { url := url, base64 := none, mimeType := none, size := none,
    success := false, error := some ("下载超时（" ++ toString timeoutMs ++ "ms）") }

/-- `downloadImageWithTimeout(zentaoApi, url, timeoutMs)`:
`Promise.race` of the (never-rejecting) download promise against the
timeout timer — whichever settles first wins, and a transfer that does
not settle within the timeout loses to the timer.  A rejecting transfer
is caught and turned into a failure result carrying the error message. -/
def downloadImageWithTimeout (env : String → Transfer) (url : String)
    (timeoutMs : Nat) : DownloadedImage :=
  match env url with
  | .resolves delay payload =>
    if delay < timeoutMs then
      { url := url, base64 := some (String.mk (base64Encode payload)),
        mimeType := some (detectMimeType payload), size := some payload.length,
        success := true, error := none }
    else timeoutResult url timeoutMs
  | .rejects delay msg =>
    if delay < timeoutMs then
      { url := url, base64 := none, mimeType := none, size := none,
        success := false, error := some msg }
    else timeoutResult url timeoutMs
  | .never => timeoutResult url timeoutMs

/-- The serial branch of `downloadImages`: one item at a time, each with
the per-item timeout, failures never stopping the loop. -/
def downloadImagesSerial (env : String → Transfer) (timeoutMs : Nat) :
    List String → List DownloadedImage
  | [] => []
  | url :: rest =>
    downloadImageWithTimeout env url timeoutMs :: downloadImagesSerial env timeoutMs rest

/-- `downloadImages(zentaoApi, imageUrls, parallel, timeoutMs)`: empty
input short-circuits; parallel mode launches every URL and joins with
`Promise.allSettled`, whose result array is in input order — and since
`downloadImageWithTimeout` never rejects, every entry is fulfilled with
that item's own result (the `rejected` arm of the source's mapping is
dead code); serial mode walks the list in order. -/
def downloadImages (env : String → Transfer) (imageUrls : List String)
    (parallel : Bool) (timeoutMs : Nat) : List DownloadedImage :=
  if imageUrls.isEmpty then []
  else if parallel then
    imageUrls.map (fun url => downloadImageWithTimeout env url timeoutMs)
  else
    downloadImagesSerial env timeoutMs imageUrls

/-! ## Auxiliary definitions used by the statements and proofs -/

/-- Recognizer of the full regex `[a-z0-9]+(?:-[a-z0-9]+)*`:
`patAux true` demands a leading alphanumeric run; every hyphen must be
followed by another alphanumeric run. -/
def patAux : Bool → List Char → Bool
  | first, [] => !first
  | first, c :: rest =>
    if c == '-' then !first && patAux true rest
    else isAlnumLower c && patAux false rest

def patOk (l : List Char) : Bool := patAux true l

/-- Loop invariant of `scanEnglish`: the open (reversed) match `acc` is
empty, a complete pattern match, or a complete match plus a transient
hyphen whose alphanumeric successor heads the remaining input. -/
def scanInv (l acc : List Char) : Prop :=
  acc = [] ∨ patOk acc.reverse = true ∨
    (∃ as, acc = '-' :: as ∧ patOk as.reverse = true ∧ lookaheadAlnum l = true)

/-- Could a match ending right before this remaining input be extended
into it?  Yes iff the input starts with an alphanumeric (extending the
current run) or with a hyphen followed by an alphanumeric (starting
another hyphen-joined run) — the two continuation conditions of the
regex `[a-z0-9]+(?:-[a-z0-9]+)*`. -/
def canExtend : List Char → Bool
  | [] => false
  | c :: rest => isAlnumLower c || (c == '-' && lookaheadAlnum rest)

/-- Reassemble a text from alternating (gap, token) parts and a final
gap: `glue [(g₀,t₀), (g₁,t₁)] last = g₀ ++ t₀ ++ g₁ ++ t₁ ++ last`. -/
def glue : List (List Char × List Char) → List Char → List Char
  | [], last => last
  | (g, t) :: rest, last => g ++ (t ++ glue rest last)

/-- ASCII alphanumeric in the sense of the spec sentence "contains no
ASCII alphanumeric": lower, digit or upper. -/
def isAsciiAlnumAny (c : Char) : Bool :=
  isAlnumLower c || (65 ≤ c.toNat && c.toNat ≤ 90)

/-- `start && storyDate < start → exclude`, as a Bool on the parsed
optional lower bound. -/
def boundOkLower (ts : Nat) : Option Nat → Bool
  | some st => !(ts < st)
  | none => true

/-- `end && storyDate > end → exclude`, as a Bool on the parsed
optional upper bound. -/
def boundOkUpper (ts : Nat) : Option Nat → Bool
  | some en => !(ts > en)
  | none => true

/-- Environment for the C8 witness: URL `u2` hangs, the others resolve
quickly with a JPEG payload. -/
def envW : String → Transfer := fun u =>
  if u == "u2" then Transfer.never else Transfer.resolves 10 [0xFF, 0xD8, 1]

/-- Modelled from the spec's words, for comparison with the code (C9):
"extracts every maximal run of ASCII letters/digits/hyphens as one
case-folded token" — the maximal runs of the character class
`[a-z0-9-]` over the lower-cased keyword. -/
def isWordHyphenChar (c : Char) : Bool := isAlnumLower c || c == '-'

def maximalRuns : List Char → List Char → List (List Char)
  | [], acc => if acc.isEmpty then [] else [acc.reverse]
  | c :: rest, acc =>
    if isWordHyphenChar c then maximalRuns rest (c :: acc)
    else if acc.isEmpty then maximalRuns rest []
    else acc.reverse :: maximalRuns rest []

def specRunTokens (k : String) : List String :=
  (maximalRuns (lowerStr k).data []).map (fun l => String.mk l)

example : splitKeywords "a--b" = ["a", "b"] := by decide

example : splitKeywords "a-b-c" = ["a-b-c"] := by decide

example : splitKeywords "-a-" = ["a"] := by decide

example : splitKeywords "Hello 大R促活" = ["hello", "r", "大", "促", "活"] := by decide

example : splitKeywords "!!!" = ["!!!"] := by decide

example : splitKeywords "" = [""] := by decide

example : strIncludes "大r用户促活方案" "大r促活" = false := by decide

example : strIncludes "大r用户促活方案" "促" = true := by decide

example : strIncludes "" "" = true := by decide

example :
    calculateMatchScore ⟨1, "大R用户促活方案", "active", none, none, none, none⟩
      (lowerStr "大R促活") (splitKeywords "大R促活") = 60 := by
  norm_num [calculateMatchScore, titleTierScore, descTierScore, auxBonusScore,
    eq_false (show ¬ (lowerStr "大R用户促活方案" = lowerStr "大R促活") from by decide),
    show strIncludes (lowerStr "大R用户促活方案") (lowerStr "大R促活") = false from by decide,
    show ((splitKeywords "大R促活").filter fun k =>
      strIncludes (lowerStr "大R用户促活方案") k).length = 4 from by decide,
    show (splitKeywords "大R促活").length = 4 from by decide,
    show strIncludes (lowerStr "") (lowerStr "大R促活") = false from by decide,
    show strIncludes "" (lowerStr "大R促活") = false from by decide,
    show lowerStr "" = "" from by decide]

example :
    calculateMatchScore ⟨1, "a", "active", some "xax", some "a", none, none⟩
      (lowerStr "a") (splitKeywords "a") = 150 := by
  norm_num [calculateMatchScore, titleTierScore, descTierScore, auxBonusScore,
    show lowerStr "a" = "a" from by decide, show lowerStr "xax" = "xax" from by decide,
    show strIncludes "xax" "a" = true from by decide,
    show strIncludes "a" "a" = true from by decide]

example : (parseDate "2024-01-02").isSome = true := by decide

example : (parseDate "2024-01-02 10:00:00").isSome = true := by decide

example : parseDate "not-a-date" = none := by decide

example : parseDate "2024-13-01" = none := by decide

example :
    filterByDateRange
      [⟨1, "t", "active", none, none, none, some "2024-01-02 10:00:00"⟩]
      none (some "2024-01-02") = [] := by decide

example :
    filterByDateRange
      [⟨1, "t", "active", none, none, none, some "2024-01-02 10:00:00"⟩]
      none (some "2024-01-03") =
      [⟨1, "t", "active", none, none, none, some "2024-01-02 10:00:00"⟩] := by decide

example :
    request [.html "<script>self.location='/user-login'</script>", .envelope "success" "payload1"]
      false ⟨some "sid0", 1, 0⟩ = (.ok "payload1", ⟨some "sid", 2, 1⟩) := by decide

example :
    request [.html "<script>self.location='/user-login'</script>",
      .html "<script>self.location='/user-login'</script>"]
      false ⟨some "sid0", 1, 0⟩ = (.sessionExpiredError, ⟨some "sid", 2, 1⟩) := by decide

set_option maxRecDepth 40000 in
example : fetchAllPages server250 = (List.range 250, 3) := by decide

example : fetchAllPages (fun _ => PageData.mk ([] : List Nat) none) = ([], 1) := by decide

example : (fetchAllPages serverInconsistent).2 = 1 := by decide

example : (fetchAllPages serverEndless).2 = 100 := by decide

example :
    (downloadImages
      (fun u => if u == "u2" then .never else .resolves 10 [0xFF, 0xD8, 1])
      ["u1", "u2", "u3"] true 15000).map (fun r => (r.url, r.success)) =
      [("u1", true), ("u2", false), ("u3", true)] := by decide

example :
    (downloadImageWithTimeout (fun _ => .never) "u" 15000).error =
      some "下载超时（15000ms）" := by decide

/-! ## Lemmas about `hasSub` (JS `includes`) and the tokenizer -/

theorem isPrefixList_iff (pat hay : List Char) :
    isPrefixList pat hay = true ↔ ∃ t, hay = pat ++ t := by
  induction pat generalizing hay with
  | nil => simp [isPrefixList]
  | cons p ps ih =>
    cases hay with
    | nil => simp [isPrefixList]
    | cons h hs =>
      simp only [isPrefixList, Bool.and_eq_true, beq_iff_eq, ih, List.cons_append,
        List.cons.injEq]
      constructor
      · rintro ⟨rfl, t, rfl⟩
        exact ⟨t, rfl, rfl⟩
      · rintro ⟨t, rfl, rfl⟩
        exact ⟨rfl, t, rfl⟩

theorem hasSub_iff (hay pat : List Char) :
    hasSub hay pat = true ↔ ∃ a b, hay = a ++ pat ++ b := by
  induction hay with
  | nil =>
    rw [hasSub]
    simp only [Bool.or_false, isPrefixList_iff]
    constructor
    · rintro ⟨t, ht⟩
      exact ⟨[], t, by simpa using ht⟩
    · rintro ⟨a, b, h⟩
      refine ⟨b, ?_⟩
      have ha : a = [] := by
        cases a with
        | nil => rfl
        | cons x xs => simp at h
      subst ha
      simpa using h
  | cons c t ih =>
    rw [hasSub]
    simp only [Bool.or_eq_true, isPrefixList_iff, ih]
    constructor
    · rintro (⟨s, hs⟩ | ⟨a, b, h⟩)
      · exact ⟨[], s, by simpa using hs⟩
      · exact ⟨c :: a, b, by simp [h]⟩
    · rintro ⟨a, b, h⟩
      cases a with
      | nil =>
        exact Or.inl ⟨b, by simpa using h⟩
      | cons x xs =>
        simp only [List.cons_append, List.cons.injEq] at h
        exact Or.inr ⟨xs, b, h.2⟩

theorem hasSub_refl (l : List Char) : hasSub l l = true := by
  rw [hasSub_iff]
  exact ⟨[], [], by simp⟩

theorem hasSub_trans {a b c : List Char} (h1 : hasSub a b = true)
    (h2 : hasSub b c = true) : hasSub a c = true := by
  rw [hasSub_iff] at h1 h2 ⊢
  obtain ⟨x, y, rfl⟩ := h1
  obtain ⟨u, v, rfl⟩ := h2
  exact ⟨x ++ u, v ++ y, by simp⟩

theorem hasSub_of_mem {c : Char} {l : List Char} (h : c ∈ l) :
    hasSub l [c] = true := by
  rw [hasSub_iff]
  obtain ⟨a, b, rfl⟩ := List.append_of_mem h
  exact ⟨a, b, by simp⟩

theorem hasSub_append_left {l t : List Char} (pre : List Char)
    (h : hasSub l t = true) : hasSub (pre ++ l) t = true := by
  rw [hasSub_iff] at h ⊢
  obtain ⟨a, b, rfl⟩ := h
  exact ⟨pre ++ a, b, by simp⟩

theorem hasSub_nil_iff (pat : List Char) : hasSub [] pat = true ↔ pat = [] := by
  rw [hasSub_iff]
  constructor
  · rintro ⟨a, b, h⟩
    rcases List.append_eq_nil.mp (List.append_eq_nil.mp h.symm).1 with ⟨-, h2⟩
    exact h2
  · rintro rfl
    exact ⟨[], [], rfl⟩

theorem hasSub_empty (hay : List Char) : hasSub hay [] = true := by
  rw [hasSub_iff]
  exact ⟨[], hay, rfl⟩

example : patOk "a-b2".data = true := by decide

example : patOk "a--b".data = false := by decide

example : patOk "a-".data = false := by decide

example : patOk "-a".data = false := by decide

example : patOk [] = false := by decide

theorem alnum_ne_hyphen {c : Char} (hc : isAlnumLower c = true) : (c == '-') = false := by
  cases h : c == '-' with
  | false => rfl
  | true =>
    have hcc : c = '-' := eq_of_beq h
    subst hcc
    exact absurd hc (by decide)

theorem patOk_singleton {c : Char} (hc : isAlnumLower c = true) : patOk [c] = true := by
  simp [patOk, patAux, alnum_ne_hyphen hc, hc]

theorem patAux_append_alnum {c : Char} (hc : isAlnumLower c = true) :
    ∀ (l : List Char) (first : Bool), patAux first l = true → patAux first (l ++ [c]) = true := by
  intro l
  induction l with
  | nil =>
    intro first h
    have hf : first = false := by simpa [patAux] using h
    subst hf
    simp [patAux, alnum_ne_hyphen hc, hc]
  | cons x xs ih =>
    intro first h
    simp only [patAux, List.cons_append] at h ⊢
    by_cases hx : (x == '-') = true
    · simp only [hx, if_true, Bool.and_eq_true] at h ⊢
      exact ⟨h.1, ih true h.2⟩
    · simp only [Bool.not_eq_true] at hx
      simp only [hx, Bool.false_eq_true, if_false, Bool.and_eq_true] at h ⊢
      exact ⟨h.1, ih false h.2⟩

theorem patAux_append_hyphen_alnum {c : Char} (hc : isAlnumLower c = true) :
    ∀ (l : List Char) (first : Bool), patAux first l = true →
      patAux first (l ++ ['-', c]) = true := by
  intro l
  induction l with
  | nil =>
    intro first h
    have hf : first = false := by simpa [patAux] using h
    subst hf
    simp [patAux, alnum_ne_hyphen hc, hc]
  | cons x xs ih =>
    intro first h
    simp only [patAux, List.cons_append] at h ⊢
    by_cases hx : (x == '-') = true
    · simp only [hx, if_true, Bool.and_eq_true] at h ⊢
      exact ⟨h.1, ih true h.2⟩
    · simp only [Bool.not_eq_true] at hx
      simp only [hx, Bool.false_eq_true, if_false, Bool.and_eq_true] at h ⊢
      exact ⟨h.1, ih false h.2⟩

/-- Every token produced by the scanner matches the regex. -/
theorem scanEnglish_patOk :
    ∀ (l acc : List Char), scanInv l acc → ∀ t ∈ scanEnglish l acc, patOk t = true := by
  intro l
  induction l with
  | nil =>
    intro acc hinv t ht
    simp only [scanEnglish] at ht
    split at ht
    · simp at ht
    · next hne =>
      simp only [List.mem_singleton] at ht
      subst ht
      rcases hinv with rfl | h | ⟨as, rfl, hp, hla⟩
      · simp at hne
      · exact h
      · simp [lookaheadAlnum] at hla
  | cons c rest ih =>
    intro acc hinv t ht
    simp only [scanEnglish] at ht
    by_cases hc : isAlnumLower c = true
    · rw [if_pos hc] at ht
      refine ih (c :: acc) ?_ t ht
      right; left
      rcases hinv with rfl | h | ⟨as, rfl, hp, hla⟩
      · simpa using patOk_singleton hc
      · simpa using patAux_append_alnum hc acc.reverse true h
      · have hla2 : isAlnumLower c = true := by simpa [lookaheadAlnum] using hla
        simp only [List.reverse_cons, List.append_assoc, List.singleton_append]
        simpa using patAux_append_hyphen_alnum hc as.reverse true hp
    · rw [if_neg hc] at ht
      by_cases h2 : (c == '-' && !acc.isEmpty && lookaheadAlnum rest) = true
      · rw [if_pos h2] at ht
        simp only [Bool.and_eq_true] at h2
        refine ih ('-' :: acc) ?_ t ht
        right; right
        refine ⟨acc, rfl, ?_, h2.2⟩
        rcases hinv with rfl | h | ⟨as, rfl, hp, hla⟩
        · simp [List.isEmpty_nil] at h2
        · exact h
        · exact absurd (by simpa [lookaheadAlnum] using hla) hc
      · rw [if_neg h2] at ht
        by_cases h3 : acc.isEmpty = true
        · rw [if_pos h3] at ht
          exact ih [] (Or.inl rfl) t ht
        · rw [if_neg h3] at ht
          have hpacc : patOk acc.reverse = true := by
            rcases hinv with rfl | h | ⟨as, rfl, hp, hla⟩
            · simp at h3
            · exact h
            · exact absurd (by simpa [lookaheadAlnum] using hla) hc
          rcases List.mem_cons.mp ht with rfl | htl
          · exact hpacc
          · exact ih [] (Or.inl rfl) t htl

/-- Every token produced by the scanner occurs contiguously in the
scanned text (prefixed by the open match). -/
theorem scanEnglish_sub :
    ∀ (l acc : List Char), ∀ t ∈ scanEnglish l acc,
      hasSub (acc.reverse ++ l) t = true := by
  intro l
  induction l with
  | nil =>
    intro acc t ht
    simp only [scanEnglish] at ht
    split at ht
    · simp at ht
    · simp only [List.mem_singleton] at ht
      subst ht
      simpa using hasSub_refl acc.reverse
  | cons c rest ih =>
    intro acc t ht
    simp only [scanEnglish] at ht
    by_cases hc : isAlnumLower c = true
    · rw [if_pos hc] at ht
      have := ih (c :: acc) t ht
      simpa [List.reverse_cons, List.append_assoc] using this
    · rw [if_neg hc] at ht
      by_cases h2 : (c == '-' && !acc.isEmpty && lookaheadAlnum rest) = true
      · rw [if_pos h2] at ht
        have h2' : c = '-' := by
          simp only [Bool.and_eq_true, beq_iff_eq] at h2
          exact h2.1.1
        subst h2'
        have := ih ('-' :: acc) t ht
        simpa [List.reverse_cons, List.append_assoc] using this
      · rw [if_neg h2] at ht
        by_cases h3 : acc.isEmpty = true
        · rw [if_pos h3] at ht
          have := ih [] t ht
          simp only [List.reverse_nil, List.nil_append] at this
          have h4 := hasSub_append_left (acc.reverse ++ [c]) this
          simpa [List.append_assoc] using h4
        · rw [if_neg h3] at ht
          rcases List.mem_cons.mp ht with rfl | htl
          · rw [hasSub_iff]
            exact ⟨[], c :: rest, by simp⟩
          · have := ih [] t htl
            simp only [List.reverse_nil, List.nil_append] at this
            have h4 := hasSub_append_left (acc.reverse ++ [c]) this
            simpa [List.append_assoc] using h4

/-- Scanner tokens are never empty. -/
theorem scanEnglish_ne_nil :
    ∀ (l acc : List Char), ∀ t ∈ scanEnglish l acc, t ≠ [] := by
  intro l
  induction l with
  | nil =>
    intro acc t ht
    simp only [scanEnglish] at ht
    split at ht
    · simp at ht
    · next hne =>
      simp only [List.mem_singleton] at ht
      subst ht
      simpa [List.isEmpty_iff] using hne
  | cons c rest ih =>
    intro acc t ht
    simp only [scanEnglish] at ht
    by_cases hc : isAlnumLower c = true
    · rw [if_pos hc] at ht
      exact ih (c :: acc) t ht
    · rw [if_neg hc] at ht
      by_cases h2 : (c == '-' && !acc.isEmpty && lookaheadAlnum rest) = true
      · rw [if_pos h2] at ht
        exact ih ('-' :: acc) t ht
      · rw [if_neg h2] at ht
        by_cases h3 : acc.isEmpty = true
        · rw [if_pos h3] at ht
          exact ih [] t ht
        · rw [if_neg h3] at ht
          rcases List.mem_cons.mp ht with rfl | htl
          · simpa [List.isEmpty_iff] using h3
          · exact ih [] t htl

/-- On text without alphanumeric characters the scanner finds nothing. -/
theorem scanEnglish_nil_of_no_alnum :
    ∀ (l : List Char), (∀ c ∈ l, isAlnumLower c = false) → scanEnglish l [] = [] := by
  intro l
  induction l with
  | nil => simp [scanEnglish]
  | cons c rest ih =>
    intro h
    have hc : isAlnumLower c = false := h c (List.mem_cons_self c rest)
    simp only [scanEnglish, hc, Bool.false_eq_true, if_false, List.isEmpty_nil,
      Bool.not_true, Bool.and_false, Bool.false_and, Bool.and_eq_true]
    simpa using ih (fun d hd => h d (List.mem_cons_of_mem c hd))

theorem patOk_head {t : List Char} (h : patOk t = true) :
    ∃ a ts, t = a :: ts ∧ isAlnumLower a = true := by
  cases t with
  | nil => simp [patOk, patAux] at h
  | cons a ts =>
    refine ⟨a, ts, rfl, ?_⟩
    by_cases ha : (a == '-') = true
    · simp [patOk, patAux, ha] at h
    · simp only [patOk, patAux, Bool.and_eq_true] at h
      rw [if_neg (by simpa using ha)] at h
      exact (Bool.and_eq_true _ _).mp h |>.1

/-- Peeling one token off the scanner: with a match open (`acc ≠ []`),
the scanner consumes some extension `ext` of the current match, emits
`acc.reverse ++ ext` — a complete regex match — and restarts on the
remaining input `rest2`, which cannot extend the emitted match (it does
not begin with an alphanumeric nor with a hyphen followed by one): the
emitted token is maximal. -/
theorem scanEnglish_peel :
    ∀ (l acc : List Char), acc ≠ [] → scanInv l acc →
      ∃ ext rest2, l = ext ++ rest2 ∧
        scanEnglish l acc = (acc.reverse ++ ext) :: scanEnglish rest2 [] ∧
        patOk (acc.reverse ++ ext) = true ∧
        canExtend rest2 = false := by
  intro l
  induction l with
  | nil =>
    intro acc hne hinv
    refine ⟨[], [], rfl, ?_, ?_, rfl⟩
    · simp [scanEnglish, List.isEmpty_iff, hne]
    · rcases hinv with rfl | h | ⟨as, rfl, hp, hla⟩
      · exact absurd rfl hne
      · simpa using h
      · simp [lookaheadAlnum] at hla
  | cons c rest ih =>
    intro acc hne hinv
    by_cases hc : isAlnumLower c = true
    · have hstep : scanEnglish (c :: rest) acc = scanEnglish rest (c :: acc) := by
        simp [scanEnglish, hc]
      have hinv2 : scanInv rest (c :: acc) := by
        right; left
        rcases hinv with rfl | h | ⟨as, rfl, hp, hla⟩
        · exact absurd rfl hne
        · simpa using patAux_append_alnum hc acc.reverse true h
        · simp only [List.reverse_cons, List.append_assoc, List.singleton_append]
          simpa using patAux_append_hyphen_alnum hc as.reverse true hp
      obtain ⟨ext, rest2, hsplit, hscan, hpat, hnext⟩ := ih (c :: acc) (by simp) hinv2
      have hrw : (c :: acc).reverse ++ ext = acc.reverse ++ (c :: ext) := by simp
      refine ⟨c :: ext, rest2, by simp [hsplit], ?_, ?_, hnext⟩
      · rw [hstep, hscan, hrw]
      · rw [← hrw]; exact hpat
    · by_cases h2 : (c == '-' && !acc.isEmpty && lookaheadAlnum rest) = true
      · have hc' : c = '-' := by
          simp only [Bool.and_eq_true, beq_iff_eq] at h2
          exact h2.1.1
        have hla : lookaheadAlnum rest = true := by
          simp only [Bool.and_eq_true] at h2
          exact h2.2
        have hstep : scanEnglish (c :: rest) acc = scanEnglish rest ('-' :: acc) := by
          simp [scanEnglish, hc, h2]
        have hpacc : patOk acc.reverse = true := by
          rcases hinv with rfl | h | ⟨as, rfl, hp, hla2⟩
          · exact absurd rfl hne
          · exact h
          · exact absurd (by simpa [lookaheadAlnum] using hla2) hc
        have hinv2 : scanInv rest ('-' :: acc) := Or.inr (Or.inr ⟨acc, rfl, hpacc, hla⟩)
        obtain ⟨ext, rest2, hsplit, hscan, hpat, hnext⟩ := ih ('-' :: acc) (by simp) hinv2
        have hrw : ('-' :: acc).reverse ++ ext = acc.reverse ++ ('-' :: ext) := by simp
        subst hc'
        refine ⟨'-' :: ext, rest2, by simp [hsplit], ?_, ?_, hnext⟩
        · rw [hstep, hscan, hrw]
        · rw [← hrw]; exact hpat
      · have hacc : acc.isEmpty = false := by
          simp [List.isEmpty_iff, hne]
        have hstep : scanEnglish (c :: rest) acc = acc.reverse :: scanEnglish rest [] := by
          simp only [scanEnglish]
          rw [if_neg hc, if_neg h2, if_neg (by simp [hacc])]
        have hskip : scanEnglish (c :: rest) [] = scanEnglish rest [] := by
          simp [scanEnglish, hc]
        have hpacc : patOk acc.reverse = true := by
          rcases hinv with rfl | h | ⟨as, rfl, hp, hla2⟩
          · exact absurd rfl hne
          · exact h
          · exact absurd (by simpa [lookaheadAlnum] using hla2) hc
        refine ⟨[], c :: rest, by simp, ?_, by simpa using hpacc, ?_⟩
        · rw [hstep, hskip]
          simp
        · simp only [canExtend]
          have h2' : (c == '-' && lookaheadAlnum rest) = false := by
            cases hx : (c == '-' && lookaheadAlnum rest) with
            | false => rfl
            | true =>
              exfalso
              apply h2
              simp only [Bool.and_eq_true] at hx ⊢
              exact ⟨⟨hx.1, by simp [hacc]⟩, hx.2⟩
          have hc0 : isAlnumLower c = false := by simpa using hc
          simp [hc0, h2']

/-- Full decomposition of a scanned text, length-bounded induction.
The text splits into alternating inert gaps and the scanner's tokens,
in order: every gap is free of alphanumeric characters (so no
alphanumeric material is dropped or truncated out of a token), every
token is a complete regex match, and every gap standing between two
tokens is neither empty nor a single hyphen (either would have let the
regex scan absorb the following token into the previous match).  These
conditions pin the token sequence down to exactly the maximal greedy
matches of `[a-z0-9]+(?:-[a-z0-9]+)*`, in order of occurrence. -/
theorem scanEnglish_decomposition_aux :
    ∀ (n : Nat) (l : List Char), l.length ≤ n →
      ∃ parts last, l = glue parts last ∧
        scanEnglish l [] = parts.map Prod.snd ∧
        (∀ p ∈ parts, patOk p.2 = true) ∧
        (∀ p ∈ parts, ∀ c ∈ p.1, isAlnumLower c = false) ∧
        (∀ c ∈ last, isAlnumLower c = false) ∧
        (∀ p ∈ parts.tail, p.1 ≠ [] ∧ p.1 ≠ ['-']) := by
  intro n
  induction n with
  | zero =>
    intro l hl
    have hnil : l = [] := List.eq_nil_of_length_eq_zero (Nat.le_zero.mp hl)
    subst hnil
    exact ⟨[], [], rfl, rfl, by simp, by simp, by simp, by simp⟩
  | succ n ih =>
    intro l hl
    cases l with
    | nil => exact ⟨[], [], rfl, rfl, by simp, by simp, by simp, by simp⟩
    | cons c rest =>
      by_cases hc : isAlnumLower c = true
      · have hstep : scanEnglish (c :: rest) [] = scanEnglish rest [c] := by
          simp [scanEnglish, hc]
        obtain ⟨ext, rest2, hsplit, hscan, hpat, hnext⟩ :=
          scanEnglish_peel rest [c] (by simp)
            (Or.inr (Or.inl (by simpa using patOk_singleton hc)))
        have hlen2 : rest2.length ≤ n := by
          subst hsplit
          simp only [List.length_cons, List.length_append] at hl
          omega
        obtain ⟨parts2, last2, hglue2, hscan2, hpat2, hgap2, hlast2, htail2⟩ := ih rest2 hlen2
        have hall2 : ∀ p ∈ parts2, p.1 ≠ [] ∧ p.1 ≠ ['-'] := by
          cases parts2 with
          | nil => intro p hp; simp at hp
          | cons p0 ps =>
            obtain ⟨g0, t0⟩ := p0
            have hcanex : canExtend (glue ((g0, t0) :: ps) last2) = false := by
              rw [← hglue2]; exact hnext
            obtain ⟨a, ts, hts, ha⟩ := patOk_head (hpat2 (g0, t0) (List.mem_cons_self _ _))
            have hg0 : g0 ≠ [] ∧ g0 ≠ ['-'] := by
              constructor
              · intro hg
                rw [hg] at hcanex
                simp only [glue, List.nil_append] at hcanex
                rw [show t0 = a :: ts from hts] at hcanex
                simp [canExtend, ha] at hcanex
              · intro hg
                rw [hg] at hcanex
                simp only [glue] at hcanex
                rw [show t0 = a :: ts from hts] at hcanex
                have hhyp : isAlnumLower '-' = false := by decide
                simp [canExtend, lookaheadAlnum, ha, hhyp] at hcanex
            intro p hp
            rcases List.mem_cons.mp hp with rfl | hmem
            · exact hg0
            · exact htail2 p (by simpa using hmem)
        refine ⟨([], c :: ext) :: parts2, last2, ?_, ?_, ?_, ?_, hlast2, by simpa using hall2⟩
        · simp [glue, hsplit, hglue2]
        · rw [hstep, hscan, hscan2]
          simp
        · intro p hp
          rcases List.mem_cons.mp hp with rfl | hmem
          · simpa using hpat
          · exact hpat2 p hmem
        · intro p hp
          rcases List.mem_cons.mp hp with rfl | hmem
          · simp
          · exact hgap2 p hmem
      · have hc0 : isAlnumLower c = false := by simpa using hc
        have hstep : scanEnglish (c :: rest) [] = scanEnglish rest [] := by
          simp [scanEnglish, hc0]
        obtain ⟨parts2, last2, hglue2, hscan2, hpat2, hgap2, hlast2, htail2⟩ :=
          ih rest (by simp only [List.length_cons] at hl; omega)
        cases parts2 with
        | nil =>
          refine ⟨[], c :: last2, ?_, ?_, by simp, by simp, ?_, by simp⟩
          · simp only [glue] at hglue2 ⊢
            rw [hglue2]
          · rw [hstep, hscan2]
          · intro d hd
            rcases List.mem_cons.mp hd with rfl | hmem
            · exact hc0
            · exact hlast2 d hmem
        | cons p0 ps =>
          obtain ⟨g0, t0⟩ := p0
          refine ⟨(c :: g0, t0) :: ps, last2, ?_, ?_, ?_, ?_, hlast2, by simpa using htail2⟩
          · simp only [glue] at hglue2 ⊢
            rw [List.cons_append, hglue2]
          · rw [hstep, hscan2]
            simp
          · intro p hp
            rcases List.mem_cons.mp hp with rfl | hmem
            · exact hpat2 (g0, t0) (List.mem_cons_self _ _)
            · exact hpat2 p (List.mem_cons_of_mem _ hmem)
          · intro p hp
            rcases List.mem_cons.mp hp with rfl | hmem
            · intro d hd
              rcases List.mem_cons.mp hd with rfl | hmem2
              · exact hc0
              · exact hgap2 (g0, t0) (List.mem_cons_self _ _) d hmem2
            · exact hgap2 p (List.mem_cons_of_mem _ hmem)

/-- The decomposition at the text's own length. -/
theorem scanEnglish_decomposition (l : List Char) :
    ∃ parts last, l = glue parts last ∧
      scanEnglish l [] = parts.map Prod.snd ∧
      (∀ p ∈ parts, patOk p.2 = true) ∧
      (∀ p ∈ parts, ∀ c ∈ p.1, isAlnumLower c = false) ∧
      (∀ c ∈ last, isAlnumLower c = false) ∧
      (∀ p ∈ parts.tail, p.1 ≠ [] ∧ p.1 ≠ ['-']) :=
  scanEnglish_decomposition_aux l.length l (le_refl _)

/-! ## Lemmas about `splitKeywords` -/

theorem splitKeywords_ne_nil (k : String) : splitKeywords k ≠ [] := by
  simp only [splitKeywords]
  split
  · simp
  · next h => simpa [List.isEmpty_iff] using h

/-- Every token is an English scanner match, a CJK character of the
lower-cased keyword, or the whole lower-cased keyword (fallback). -/
theorem splitKeywords_classify (k : String) :
    ∀ t ∈ splitKeywords k,
      (∃ l, t = String.mk l ∧ l ∈ scanEnglish (lowerStr k).data []) ∨
      (∃ c, t = String.mk [c] ∧ c ∈ (lowerStr k).data ∧ isCJKChar c = true) ∨
      t = lowerStr k := by
  intro t ht
  simp only [splitKeywords] at ht
  split at ht
  · right; right; simpa using ht
  · rcases List.mem_append.mp ht with h | h
    · left
      rcases List.mem_map.mp h with ⟨l, hl, rfl⟩
      exact ⟨l, rfl, hl⟩
    · right; left
      rcases List.mem_map.mp h with ⟨c, hc, rfl⟩
      exact ⟨c, rfl, (List.mem_filter.mp hc).1, (List.mem_filter.mp hc).2⟩

/-- Every token occurs contiguously inside the lower-cased keyword. -/
theorem splitKeywords_sub (k : String) :
    ∀ t ∈ splitKeywords k, hasSub (lowerStr k).data t.data = true := by
  intro t ht
  rcases splitKeywords_classify k t ht with ⟨l, rfl, hl⟩ | ⟨c, rfl, hc, -⟩ | rfl
  · simpa using scanEnglish_sub (lowerStr k).data [] l hl
  · exact hasSub_of_mem hc
  · exact hasSub_refl _

/-- The empty string is a token only for the empty keyword. -/
theorem splitKeywords_empty_mem (k : String) (h : "" ∈ splitKeywords k) :
    lowerStr k = "" := by
  rcases splitKeywords_classify k "" h with ⟨l, hl, hmem⟩ | ⟨c, hc, -, -⟩ | hfb
  · have hnil : l = [] := by
      have := congrArg String.data hl
      simpa using this.symm
    subst hnil
    exact absurd rfl (scanEnglish_ne_nil (lowerStr k).data [] [] hmem)
  · have := congrArg String.data hc
    simp at this
  · exact hfb.symm

/-- Every CJK character of the lower-cased keyword yields its own
single-character token. -/
theorem mem_splitKeywords_of_cjk {k : String} {c : Char}
    (hc : c ∈ (lowerStr k).data) (hcjk : isCJKChar c = true) :
    String.mk [c] ∈ splitKeywords k := by
  have hmem : String.mk [c] ∈ ((lowerStr k).data.filter isCJKChar).map (fun c => String.mk [c]) :=
    List.mem_map.mpr ⟨c, List.mem_filter.mpr ⟨hc, hcjk⟩, rfl⟩
  simp only [splitKeywords]
  split
  · next hEmp =>
    rw [List.isEmpty_iff, List.append_eq_nil] at hEmp
    rw [hEmp.2] at hmem
    simp at hmem
  · exact List.mem_append_right _ hmem

/-- Every English token found by the scanner is among the returned
tokens. -/
theorem mem_splitKeywords_of_english {k : String} {l : List Char}
    (hl : l ∈ scanEnglish (lowerStr k).data []) :
    String.mk l ∈ splitKeywords k := by
  have hmem : String.mk l ∈ (scanEnglish (lowerStr k).data []).map (fun l => String.mk l) :=
    List.mem_map.mpr ⟨l, hl, rfl⟩
  simp only [splitKeywords]
  split
  · next hEmp =>
    rw [List.isEmpty_iff, List.append_eq_nil] at hEmp
    rw [hEmp.1] at hmem
    simp at hmem
  · exact List.mem_append_left _ hmem

theorem toLower_eq_self {c : Char} (h : ¬ (65 ≤ c.toNat ∧ c.toNat ≤ 90)) :
    c.toLower = c := by
  unfold Char.toLower
  rw [if_neg]
  intro hcon
  exact h ⟨hcon.1, hcon.2⟩

/-- The fallback branch: a keyword with no ASCII alphanumeric and no
CJK character tokenizes to the single lower-cased keyword. -/
theorem splitKeywords_fallback (k : String)
    (h : ∀ c ∈ k.data, isAsciiAlnumAny c = false ∧ isCJKChar c = false) :
    splitKeywords k = [lowerStr k] := by
  have hlow : ∀ c ∈ (lowerStr k).data, isAlnumLower c = false ∧ isCJKChar c = false := by
    intro c hc
    simp only [lowerStr] at hc
    rcases List.mem_map.mp hc with ⟨d, hd, rfl⟩
    have hd2 := h d hd
    have hA : isAlnumLower d = false ∧ (65 ≤ d.toNat && d.toNat ≤ 90) = false := by
      have hx := hd2.1
      unfold isAsciiAlnumAny at hx
      exact ⟨(Bool.or_eq_false_iff.mp hx).1, (Bool.or_eq_false_iff.mp hx).2⟩
    have hupper : ¬ (65 ≤ d.toNat ∧ d.toNat ≤ 90) := by
      intro hcon
      have hbt : (65 ≤ d.toNat && d.toNat ≤ 90) = true := by
        simp [hcon.1, hcon.2]
      rw [hA.2] at hbt
      exact absurd hbt (by simp)
    rw [toLower_eq_self hupper]
    exact ⟨hA.1, hd2.2⟩
  have h1 : scanEnglish (lowerStr k).data [] = [] :=
    scanEnglish_nil_of_no_alnum _ (fun c hc => (hlow c hc).1)
  have h2 : (lowerStr k).data.filter isCJKChar = [] :=
    List.filter_eq_nil_iff.mpr (fun c hc => by simp [(hlow c hc).2])
  simp [splitKeywords, h1, h2]

/-! ## Lemmas about the score tiers -/

theorem ratio_le {c : ℚ} (hc : 0 ≤ c) {m len : ℕ} (hm : m ≤ len) :
    c * (m : ℚ) / (len : ℚ) ≤ c := by
  rcases Nat.eq_zero_or_pos len with h0 | hpos
  · subst h0
    have : m = 0 := Nat.le_zero.mp hm
    subst this
    simpa using hc
  · have hl : (0 : ℚ) < (len : ℚ) := by exact_mod_cast hpos
    rw [div_le_iff₀ hl]
    have hmq : (m : ℚ) ≤ (len : ℚ) := by exact_mod_cast hm
    calc c * (m : ℚ) ≤ c * (len : ℚ) := mul_le_mul_of_nonneg_left hmq hc
      _ = c * (len : ℚ) := rfl

theorem ratio_nonneg (c : ℚ) (hc : 0 ≤ c) (m len : ℕ) :
    0 ≤ c * (m : ℚ) / (len : ℚ) := by positivity

theorem titleTierScore_nonneg (t kw : String) (ks : List String) :
    0 ≤ titleTierScore t kw ks := by
  simp only [titleTierScore]
  split_ifs
  · norm_num
  · norm_num
  · apply div_nonneg <;> positivity
  · norm_num

theorem titleTierScore_le_100 (t kw : String) (ks : List String) :
    titleTierScore t kw ks ≤ 100 := by
  simp only [titleTierScore]
  split_ifs with h1 h2 h3
  · norm_num
  · norm_num
  · calc 60 * (((ks.filter fun k => strIncludes t k).length : ℚ)) / (ks.length : ℚ) ≤ 60 :=
        ratio_le (by norm_num) (List.length_filter_le _ _)
      _ ≤ 100 := by norm_num
  · norm_num

theorem descTierScore_nonneg (sp kw : String) (ks : List String) :
    0 ≤ descTierScore sp kw ks := by
  simp only [descTierScore]
  split_ifs
  · norm_num
  · apply div_nonneg <;> positivity
  · norm_num
  · norm_num

theorem descTierScore_le_40 (sp kw : String) (ks : List String) :
    descTierScore sp kw ks ≤ 40 := by
  simp only [descTierScore]
  split_ifs with h1 h2 h3
  · norm_num
  · calc 20 * (((ks.filter fun k => strIncludes sp k).length : ℚ)) / (ks.length : ℚ) ≤ 20 :=
        ratio_le (by norm_num) (List.length_filter_le _ _)
      _ ≤ 40 := by norm_num
  · norm_num
  · norm_num

theorem auxBonusScore_nonneg (mn pn kw : String) : 0 ≤ auxBonusScore mn pn kw := by
  simp only [auxBonusScore]
  split_ifs <;> norm_num

theorem auxBonusScore_le_10 (mn pn kw : String) : auxBonusScore mn pn kw ≤ 10 := by
  simp only [auxBonusScore]
  split_ifs <;> norm_num

/-- A field containing the whole keyword contains every token (tokens
are substrings of the keyword). -/
theorem field_token_of_keyword {field kw t : String}
    (hk : strIncludes field kw = true) (ht : strIncludes kw t = true) :
    strIncludes field t = true :=
  hasSub_trans hk ht

theorem titleTierScore_eq_zero_iff (title kw : String) (ks : List String)
    (hsub : ∀ t ∈ ks, strIncludes kw t = true) (hne : ks ≠ []) :
    (titleTierScore title kw ks = 0 ↔ ¬ ∃ t ∈ ks, strIncludes title t = true) := by
  obtain ⟨t0, ht0⟩ := List.exists_mem_of_ne_nil ks hne
  have hlen : (0 : ℚ) < (ks.length : ℚ) := by
    have := List.length_pos.mpr hne
    exact_mod_cast this
  simp only [titleTierScore]
  split_ifs with h1 h2 h3
  · constructor
    · intro h; norm_num at h
    · intro hno
      exfalso
      exact hno ⟨t0, ht0, by rw [h1]; exact hsub t0 ht0⟩
  · constructor
    · intro h; norm_num at h
    · intro hno
      exfalso
      exact hno ⟨t0, ht0, field_token_of_keyword h2 (hsub t0 ht0)⟩
  · constructor
    · intro h
      exfalso
      have hm : (0 : ℚ) < ((ks.filter fun k => strIncludes title k).length : ℚ) := by
        exact_mod_cast h3
      have : (0 : ℚ) < 60 * ((ks.filter fun k => strIncludes title k).length : ℚ) / (ks.length : ℚ) := by
        positivity
      rw [h] at this
      exact lt_irrefl 0 this
    · intro hno
      exfalso
      rw [List.length_pos] at h3
      obtain ⟨t, htf⟩ := List.exists_mem_of_ne_nil _ h3
      exact hno ⟨t, (List.mem_filter.mp htf).1, (List.mem_filter.mp htf).2⟩
  · constructor
    · intro _
      rintro ⟨t, htm, hti⟩
      exact h3 (List.length_pos.mpr (List.ne_nil_of_mem (List.mem_filter.mpr ⟨htm, hti⟩)))
    · intro _; rfl

theorem descTierScore_eq_zero_iff (sp kw : String) (ks : List String)
    (hsub : ∀ t ∈ ks, strIncludes kw t = true) (hne : ks ≠ [])
    (hemp : "" ∈ ks → kw = "") :
    (descTierScore sp kw ks = 0 ↔ ¬ ∃ t ∈ ks, strIncludes sp t = true) := by
  obtain ⟨t0, ht0⟩ := List.exists_mem_of_ne_nil ks hne
  simp only [descTierScore]
  split_ifs with h1 h2 h3
  · constructor
    · intro h; norm_num at h
    · intro hno
      exfalso
      exact hno ⟨t0, ht0, field_token_of_keyword h1 (hsub t0 ht0)⟩
  · constructor
    · intro h
      exfalso
      have hm : (0 : ℚ) < ((ks.filter fun k => strIncludes sp k).length : ℚ) := by
        exact_mod_cast h3
      have hlen : (0 : ℚ) < (ks.length : ℚ) := by
        have := List.length_pos.mpr hne
        exact_mod_cast this
      have : (0 : ℚ) < 20 * ((ks.filter fun k => strIncludes sp k).length : ℚ) / (ks.length : ℚ) := by
        positivity
      rw [h] at this
      exact lt_irrefl 0 this
    · intro hno
      exfalso
      rw [List.length_pos] at h3
      obtain ⟨t, htf⟩ := List.exists_mem_of_ne_nil _ h3
      exact hno ⟨t, (List.mem_filter.mp htf).1, (List.mem_filter.mp htf).2⟩
  · constructor
    · intro _
      rintro ⟨t, htm, hti⟩
      exact h3 (List.length_pos.mpr (List.ne_nil_of_mem (List.mem_filter.mpr ⟨htm, hti⟩)))
    · intro _; rfl
  · -- sp = "" (JS-falsy description): no token can occur in it unless the
    -- token is empty, which forces an empty keyword, contradicting ¬h1.
    constructor
    · intro _
      rintro ⟨t, htm, hti⟩
      push_neg at h2
      subst h2
      have htnil : t.data = [] := (hasSub_nil_iff t.data).mp hti
      have ht : t = "" := by
        cases t
        simp at htnil
        simp [htnil]
      subst ht
      have hkw : kw = "" := hemp htm
      subst hkw
      simp [strIncludes, hasSub_empty] at h1
    · intro _; rfl

theorem auxBonusScore_eq_zero_iff (mn pn kw : String) :
    (auxBonusScore mn pn kw = 0 ↔
      strIncludes mn kw = false ∧ strIncludes pn kw = false) := by
  simp only [auxBonusScore, Bool.or_eq_true]
  split_ifs with h1
  · refine iff_of_false (by norm_num) ?_
    rintro ⟨ha, hb⟩
    rcases h1 with h | h
    · rw [ha] at h; exact Bool.false_ne_true h
    · rw [hb] at h; exact Bool.false_ne_true h
  · simp only [not_or, Bool.not_eq_true] at h1
    exact iff_of_true rfl h1

/-! ## Lemmas about the pagination loop -/

/-- Each loop iteration issues exactly one page request, so the request
count is bounded by the remaining iteration budget. -/
theorem fetchPages_count_le {α : Type} (server : Nat → PageData α) :
    ∀ (fuel currentPage : Nat) (acc : List α) (n : Nat),
      (fetchPages server fuel currentPage acc n).2 ≤ n + fuel := by
  intro fuel
  induction fuel with
  | zero => intro currentPage acc n; simp [fetchPages]
  | succ fuel ih =>
    intro currentPage acc n
    simp only [fetchPages]
    split
    · exact le_trans (ih _ _ _) (by omega)
    · simp

/-- A page with no records never continues the loop. -/
theorem pagerHasMore_zero (pg : Pager) (p : Nat) : pagerHasMore pg p 0 = false := by
  simp [pagerHasMore]

/-- Stop as soon as the pager descriptor is absent. -/
theorem fetchPages_stop_of_no_pager {α : Type} (server : Nat → PageData α)
    (fuel currentPage : Nat) (acc : List α) (n : Nat)
    (h : (server currentPage).pager = none) :
    fetchPages server (fuel + 1) currentPage acc n =
      (acc ++ (server currentPage).recs, n + 1) := by
  simp [fetchPages, h]

/-- Stop as soon as a page returns zero records. -/
theorem fetchPages_stop_of_no_recs {α : Type} (server : Nat → PageData α)
    (fuel currentPage : Nat) (acc : List α) (n : Nat)
    (h : (server currentPage).recs = []) :
    fetchPages server (fuel + 1) currentPage acc n = (acc, n + 1) := by
  cases hp : (server currentPage).pager with
  | none => simp [fetchPages, hp, h]
  | some pg => simp [fetchPages, hp, h, pagerHasMore_zero]

/-- With no module id the story fetch always selects `'unclosed'`. -/
theorem storyBrowseSelector_none (s : Option String) :
    storyBrowseSelector s none = ("unclosed", 0) := by
  cases s with
  | none => rfl
  | some str =>
    show (if jsTruthyNat none = true then _ else _) = _
    rw [if_neg (by decide)]
    show (if (str == "") = true then _ else _) = _
    split
    · rfl
    · split <;> rfl

/-- With a (truthy) module id the bug/testcase selector is `byModule`. -/
theorem bugBrowseSelector_module (s : Option String) {m : Nat} (hm : m ≠ 0) :
    bugBrowseSelector s (some m) = ("byModule", m) := by
  unfold bugBrowseSelector
  rw [if_pos]
  · rfl
  · simp [jsTruthyNat, hm]

/-- With a (truthy) module id the story selector is `byModule`. -/
theorem storyBrowseSelector_module (s : Option String) {m : Nat} (hm : m ≠ 0) :
    storyBrowseSelector s (some m) = ("byModule", m) := by
  unfold storyBrowseSelector
  rw [if_pos]
  · rfl
  · simp [jsTruthyNat, hm]

/-! ## Lemmas about the image batch -/

/-- The serial loop produces exactly the per-item map. -/
theorem downloadImagesSerial_eq_map (env : String → Transfer) (t : Nat) :
    ∀ urls : List String,
      downloadImagesSerial env t urls =
        urls.map (fun url => downloadImageWithTimeout env url t) := by
  intro urls
  induction urls with
  | nil => rfl
  | cons u rest ih => simp [downloadImagesSerial, ih]

/-- In both modes the batch is the per-item map over the input list. -/
theorem downloadImages_eq_map (env : String → Transfer) (urls : List String)
    (par : Bool) (t : Nat) :
    downloadImages env urls par t =
      urls.map (fun url => downloadImageWithTimeout env url t) := by
  unfold downloadImages
  split
  · next h => rw [List.isEmpty_iff.mp h]; rfl
  · split
    · rfl
    · exact downloadImagesSerial_eq_map env t urls

/-- Every per-item result carries its own input URL. -/
theorem downloadImageWithTimeout_url (env : String → Transfer) (u : String) (t : Nat) :
    (downloadImageWithTimeout env u t).url = u := by
  cases henv : env u with
  | resolves d p =>
    simp only [downloadImageWithTimeout, henv]
    split <;> rfl
  | rejects d m =>
    simp only [downloadImageWithTimeout, henv]
    split <;> rfl
  | never =>
    simp only [downloadImageWithTimeout, henv]
    rfl

/-! ## Concrete score evaluations -/

theorem titleTier_daR_eq_60 :
    titleTierScore (lowerStr "大R用户促活方案") (lowerStr "大R促活") (splitKeywords "大R促活") = 60 := by
  norm_num [titleTierScore,
    eq_false (show ¬ (lowerStr "大R用户促活方案" = lowerStr "大R促活") from by decide),
    show strIncludes (lowerStr "大R用户促活方案") (lowerStr "大R促活") = false from by decide,
    show ((splitKeywords "大R促活").filter fun k =>
      strIncludes (lowerStr "大R用户促活方案") k).length = 4 from by decide,
    show (splitKeywords "大R促活").length = 4 from by decide]

theorem score_daR_eq_60 :
    calculateMatchScore ⟨1, "大R用户促活方案", "active", none, none, none, none⟩
      (lowerStr "大R促活") (splitKeywords "大R促活") = 60 := by
  norm_num [calculateMatchScore, descTierScore, auxBonusScore, titleTier_daR_eq_60,
    show strIncludes (lowerStr "") (lowerStr "大R促活") = false from by decide,
    show strIncludes "" (lowerStr "大R促活") = false from by decide,
    show lowerStr "" = "" from by decide]

theorem score_a_eq_150 :
    calculateMatchScore ⟨1, "a", "active", some "xax", some "a", none, none⟩
      (lowerStr "a") (splitKeywords "a") = 150 := by
  norm_num [calculateMatchScore, titleTierScore, descTierScore, auxBonusScore,
    show lowerStr "a" = "a" from by decide, show lowerStr "xax" = "xax" from by decide,
    show strIncludes "xax" "a" = true from by decide,
    show strIncludes "a" "a" = true from by decide]

theorem score_ab_eq_0 :
    calculateMatchScore ⟨2, "x", "active", some "", some "a", none, none⟩
      (lowerStr "a b") (splitKeywords "a b") = 0 := by
  norm_num [calculateMatchScore, titleTierScore, descTierScore, auxBonusScore,
    eq_false (show ¬ (lowerStr "x" = lowerStr "a b") from by decide),
    show strIncludes (lowerStr "x") (lowerStr "a b") = false from by decide,
    show ((splitKeywords "a b").filter fun k =>
      strIncludes (lowerStr "x") k).length = 0 from by decide,
    show strIncludes (lowerStr "") (lowerStr "a b") = false from by decide,
    show strIncludes "" (lowerStr "a b") = false from by decide,
    show lowerStr "" = "" from by decide,
    show strIncludes (lowerStr "a") (lowerStr "a b") = false from by decide]

/-! ## Claim C1 -/

/-- **C1, counterexample.**  The claim "`score ∈ [0, 130]`, and `= 0`
iff no field contains any token" fails twice on the code.  (i) The
entity with title `"a"`, description `"xax"` and module name `"a"`
scores `100 + 40 + 10 = 150 > 130` for keyword `"a"`.  (ii) For the
keyword `"a b"` the entity with title `"x"`, empty description and
module name `"a"` scores `0` although its module name contains the
token `"a"` — the module/product bonus tests only the whole keyword. -/
theorem C1_score_range_counterexample :
    ¬ (calculateMatchScore ⟨1, "a", "active", some "xax", some "a", none, none⟩
        (lowerStr "a") (splitKeywords "a") ≤ 130) ∧
    (calculateMatchScore ⟨2, "x", "active", some "", some "a", none, none⟩
        (lowerStr "a b") (splitKeywords "a b") = 0 ∧
      "a" ∈ splitKeywords "a b" ∧
      strIncludes
        (lowerStr ((⟨2, "x", "active", some "", some "a", none, none⟩ : Story).moduleName.getD ""))
        "a" = true) := by
  refine ⟨?_, score_ab_eq_0, by decide, by decide⟩
  rw [score_a_eq_150]
  norm_num

/-- **C1, amended.**  For every entity `e` and keyword `k`, scored with
the token list `splitKeywords k` exactly as `searchStories` calls it:
the score lies in `[0, 150]` (not 130 — exact title match, description
match and the auxiliary bonus combine to `100 + 40 + 10`), and it is
zero iff the title contains no token, the body text contains no token,
and neither the module name nor the product name contains the full
keyword (the auxiliary +10 tests the whole keyword, not tokens). -/
theorem C1_score_range_zero_iff_amended (e : Story) (k : String) :
    0 ≤ calculateMatchScore e (lowerStr k) (splitKeywords k) ∧
    calculateMatchScore e (lowerStr k) (splitKeywords k) ≤ 150 ∧
    (calculateMatchScore e (lowerStr k) (splitKeywords k) = 0 ↔
      (¬ ∃ t ∈ splitKeywords k, strIncludes (lowerStr e.title) t = true) ∧
      (¬ ∃ t ∈ splitKeywords k, strIncludes (lowerStr (e.spec.getD "")) t = true) ∧
      strIncludes (lowerStr (e.moduleName.getD "")) (lowerStr k) = false ∧
      strIncludes (lowerStr (e.productName.getD "")) (lowerStr k) = false) := by
  have hsub : ∀ t ∈ splitKeywords k, strIncludes (lowerStr k) t = true := fun t ht =>
    splitKeywords_sub k t ht
  have hne := splitKeywords_ne_nil k
  have hemp := splitKeywords_empty_mem k
  have hA0 := titleTierScore_nonneg (lowerStr e.title) (lowerStr k) (splitKeywords k)
  have hB0 := descTierScore_nonneg (lowerStr (e.spec.getD "")) (lowerStr k) (splitKeywords k)
  have hC0 := auxBonusScore_nonneg (lowerStr (e.moduleName.getD ""))
    (lowerStr (e.productName.getD "")) (lowerStr k)
  have hA1 := titleTierScore_le_100 (lowerStr e.title) (lowerStr k) (splitKeywords k)
  have hB1 := descTierScore_le_40 (lowerStr (e.spec.getD "")) (lowerStr k) (splitKeywords k)
  have hC1 := auxBonusScore_le_10 (lowerStr (e.moduleName.getD ""))
    (lowerStr (e.productName.getD "")) (lowerStr k)
  have hAiff := titleTierScore_eq_zero_iff (lowerStr e.title) (lowerStr k) (splitKeywords k)
    hsub hne
  have hBiff := descTierScore_eq_zero_iff (lowerStr (e.spec.getD "")) (lowerStr k)
    (splitKeywords k) hsub hne hemp
  have hCiff := auxBonusScore_eq_zero_iff (lowerStr (e.moduleName.getD ""))
    (lowerStr (e.productName.getD "")) (lowerStr k)
  simp only [calculateMatchScore]
  refine ⟨by linarith, by linarith, ?_⟩
  constructor
  · intro hz
    have hA : titleTierScore (lowerStr e.title) (lowerStr k) (splitKeywords k) = 0 := by linarith
    have hB : descTierScore (lowerStr (e.spec.getD "")) (lowerStr k) (splitKeywords k) = 0 := by
      linarith
    have hC : auxBonusScore (lowerStr (e.moduleName.getD ""))
        (lowerStr (e.productName.getD "")) (lowerStr k) = 0 := by linarith
    exact ⟨hAiff.mp hA, hBiff.mp hB, (hCiff.mp hC).1, (hCiff.mp hC).2⟩
  · rintro ⟨ha, hb, hc1, hc2⟩
    rw [hAiff.mpr ha, hBiff.mpr hb, hCiff.mpr ⟨hc1, hc2⟩]
    norm_num

/-! ## Claim C2 -/

/-- **C2, counterexample.**  The keyword `大R促活` is *not* a contiguous
substring of the title `大R用户促活方案` (`用户` separates `大R` from
`促活`), so the title tier falls through to the token-coverage branch:
all 4 tokens `r`, `大`, `促`, `活` match, giving `60 · 4/4 = 60`, not
the claimed 80.  With no description and no module/product data the
whole score is that title tier. -/
theorem C2_title_tier_counterexample :
    strIncludes (lowerStr "大R用户促活方案") (lowerStr "大R促活") = false ∧
    titleTierScore (lowerStr "大R用户促活方案") (lowerStr "大R促活") (splitKeywords "大R促活") = 60 ∧
    calculateMatchScore ⟨1, "大R用户促活方案", "active", none, none, none, none⟩
      (lowerStr "大R促活") (splitKeywords "大R促活") = 60 ∧
    (60 : ℚ) ≠ 80 :=
  ⟨by decide, titleTier_daR_eq_60, score_daR_eq_60, by norm_num⟩

/-- **C2, amended.**  For the keyword `大R促活` against any entity
titled `大R用户促活方案`, the title tier contributes exactly 60 (the
token-coverage branch with full 4/4 coverage), and any description or
module/product bonuses are added independently on top. -/
theorem C2_title_tier_amended (i : Nat) (st : String) (sp mn pn od : Option String) :
    calculateMatchScore ⟨i, "大R用户促活方案", st, sp, mn, pn, od⟩
        (lowerStr "大R促活") (splitKeywords "大R促活") =
      60 + descTierScore (lowerStr (sp.getD "")) (lowerStr "大R促活") (splitKeywords "大R促活") +
        auxBonusScore (lowerStr (mn.getD "")) (lowerStr (pn.getD "")) (lowerStr "大R促活") := by
  simp only [calculateMatchScore]
  rw [titleTier_daR_eq_60]

/-! ## Claim C3 -/

/-- **C3, counterexample.**  With only the end bound `2024-01-02`, a
story created at `2024-01-02 10:00:00` is excluded by the code, even
though the date portion of its creation date is exactly the bound date
(so a date-portion-only comparison would keep it): `parseDate` keeps
the time of day and `storyDate > end` compares full timestamps. -/
theorem C3_date_filter_counterexample :
    filterByDateRange [⟨1, "t", "active", none, none, none, some "2024-01-02 10:00:00"⟩]
        none (some "2024-01-02") = [] ∧
    String.mk (("2024-01-02 10:00:00").data.take 10) = "2024-01-02" ∧
    (parseDate "2024-01-02 10:00:00").isSome = true := by
  refine ⟨by decide, by decide, by decide⟩

/-- **C3, amended.**  Whenever a start or end bound is (truthily)
supplied, a story is kept iff its creation date is present, parseable,
and its full parsed timestamp — date *and* time of day — is not below
the parsed start nor above the parsed end; in particular every story
with a missing or unparseable creation date is excluded. -/
theorem C3_date_filter_amended (stories : List Story) (sd ed : Option String)
    (hbound : jsTruthyStr sd = true ∨ jsTruthyStr ed = true) (st : Story) :
    st ∈ filterByDateRange stories sd ed ↔
      st ∈ stories ∧ jsTruthyStr st.openedDate = true ∧
      ∃ ts, parseDate (st.openedDate.getD "") = some ts ∧
        boundOkLower ts (if jsTruthyStr sd = true then parseDate (sd.getD "") else none) = true ∧
        boundOkUpper ts (if jsTruthyStr ed = true then parseDate (ed.getD "") else none) = true := by
  have hcond : (!jsTruthyStr sd && !jsTruthyStr ed) = false := by
    rcases hbound with h | h <;> simp [h]
  unfold filterByDateRange
  rw [hcond]
  simp only [Bool.false_eq_true, if_false, List.mem_filter]
  refine and_congr_right fun hmem => ?_
  by_cases ho : jsTruthyStr st.openedDate = true
  · simp only [ho, Bool.not_true, Bool.false_eq_true, if_false, true_and]
    cases hparse : parseDate (st.openedDate.getD "") with
    | none =>
      simp only [hparse]
      constructor
      · intro h; exact absurd h (by simp)
      · rintro ⟨ts, hts, -⟩
        exact absurd hts (by simp)
    | some ts =>
      simp only [hparse, Bool.and_eq_true]
      constructor
      · rintro ⟨h1, h2⟩
        refine ⟨ts, rfl, ?_, ?_⟩
        · revert h1
          cases (if jsTruthyStr sd = true then parseDate (sd.getD "") else none) with
          | none => intro _; rfl
          | some v => intro h1; simpa [boundOkLower] using h1
        · revert h2
          cases (if jsTruthyStr ed = true then parseDate (ed.getD "") else none) with
          | none => intro _; rfl
          | some v => intro h2; simpa [boundOkUpper] using h2
      · rintro ⟨ts2, hts2, hb1, hb2⟩
        have : ts2 = ts := by
          injection hts2 with h
          exact h.symm
        subst this
        constructor
        · revert hb1
          cases (if jsTruthyStr sd = true then parseDate (sd.getD "") else none) with
          | none => intro _; rfl
          | some v => intro hb1; simpa [boundOkLower] using hb1
        · revert hb2
          cases (if jsTruthyStr ed = true then parseDate (ed.getD "") else none) with
          | none => intro _; rfl
          | some v => intro hb2; simpa [boundOkUpper] using hb2
  · have ho2 : jsTruthyStr st.openedDate = false := by
      cases h : jsTruthyStr st.openedDate with
      | false => rfl
      | true => exact absurd h ho
    simp [ho2]

/-- **C3, witness.**  A story created on `2024-01-01` passes the filter
with end bound `2024-01-02`. -/
theorem C3_date_filter_witness :
    (⟨1, "t", "active", none, none, none, some "2024-01-01"⟩ : Story) ∈
      filterByDateRange [⟨1, "t", "active", none, none, none, some "2024-01-01"⟩]
        none (some "2024-01-02") := by
  refine (C3_date_filter_amended _ none (some "2024-01-02") (Or.inr (by decide)) _).mpr ?_
  exact ⟨List.mem_singleton_self _, by decide, 72750268800, by decide, by decide, by decide⟩

/-! ## Claim C4 -/

/-- **C4.**  For an authenticated request (a session id is held): if the
first response body is classified as expired and the second is the
success envelope, the call performs exactly one forced re-login and
returns the success payload; if both bodies are classified as expired,
the call performs exactly one forced re-login and fails with the
session error — no further retries. -/
theorem C4_session_retry (b1 b2 : RespData) (p : String) (st : SessionState)
    (h1 : isSessionExpired b1 = true) (hs : st.sessionId.isSome = true) :
    (request [b1, RespData.envelope "success" p] false st =
      (RequestOutcome.ok p,
        ⟨some "sid", st.logins + 1, st.forcedRelogins + 1⟩)) ∧
    (isSessionExpired b2 = true →
      request [b1, b2] false st =
        (RequestOutcome.sessionExpiredError,
          ⟨some "sid", st.logins + 1, st.forcedRelogins + 1⟩)) := by
  obtain ⟨v, hv⟩ := Option.isSome_iff_exists.mp hs
  have hst : ensureLoggedIn st = st := by
    unfold ensureLoggedIn
    rw [hv]
    rfl
  have hforce : forceReLogin st = ⟨some "sid", st.logins + 1, st.forcedRelogins + 1⟩ := by
    rfl
  have hst2 : ensureLoggedIn ⟨some "sid", st.logins + 1, st.forcedRelogins + 1⟩ =
      ⟨some "sid", st.logins + 1, st.forcedRelogins + 1⟩ := rfl
  constructor
  · simp only [request, hst, h1, if_true, Bool.not_false, hforce, hst2]
    rfl
  · intro h2
    simp only [request, hst, h1, h2, if_true, Bool.not_false, hforce, hst2]
    rfl

/-- **C4, witness.**  Concrete scripts: an expiry page (containing the
`user-login` redirect) followed by a success envelope, and two expiry
pages, starting from a logged-in state with no prior forced renewals. -/
theorem C4_session_retry_witness :
    (request [RespData.html "<html><script>self.location='/user-login'</script></html>",
        RespData.envelope "success" "payload1"] false ⟨some "sid0", 1, 0⟩ =
      (RequestOutcome.ok "payload1", ⟨some "sid", 2, 1⟩)) ∧
    (request [RespData.html "<html><script>self.location='/user-login'</script></html>",
        RespData.html "<html><script>self.location='/user-login'</script></html>"] false
        ⟨some "sid0", 1, 0⟩ =
      (RequestOutcome.sessionExpiredError, ⟨some "sid", 2, 1⟩)) := by
  have h := C4_session_retry
    (RespData.html "<html><script>self.location='/user-login'</script></html>")
    (RespData.html "<html><script>self.location='/user-login'</script></html>")
    "payload1" ⟨some "sid0", 1, 0⟩ (by decide) (by decide)
  exact ⟨h.1, h.2 (by decide)⟩

/-! ## Claim C5 -/

/-- **C5.**  (i) The 250-record source with page size 100 and a
consistent pager yields exactly the 250 records in server order (the
concatenation of the three pages) after exactly 3 page requests.
(ii) At any point of the loop, a page without a pager descriptor ends
the aggregation with that page's records appended and no further
request.  (iii) At any point of the loop, a page with zero records ends
the aggregation with no further request. -/
theorem C5_pagination_aggregation :
    fetchAllPages server250 = (List.range 250, 3) ∧
    (∀ (α : Type) (server : Nat → PageData α) (fuel currentPage : Nat) (acc : List α) (n : Nat),
      (server currentPage).pager = none →
      fetchPages server (fuel + 1) currentPage acc n =
        (acc ++ (server currentPage).recs, n + 1)) ∧
    (∀ (α : Type) (server : Nat → PageData α) (fuel currentPage : Nat) (acc : List α) (n : Nat),
      (server currentPage).recs = [] →
      fetchPages server (fuel + 1) currentPage acc n = (acc, n + 1)) := by
  refine ⟨by set_option maxRecDepth 40000 in decide, ?_, ?_⟩
  · intro α server fuel currentPage acc n h
    exact fetchPages_stop_of_no_pager server fuel currentPage acc n h
  · intro α server fuel currentPage acc n h
    exact fetchPages_stop_of_no_recs server fuel currentPage acc n h

/-- **C5, witness.**  A pager-less page and a zero-record page both stop
the loop immediately, at page 3 with fuel 6 to spare. -/
theorem C5_pagination_witness :
    fetchPages (fun _ => PageData.mk ([] : List Nat) none) 7 3 [5] 2 = ([5], 3) ∧
    fetchPages (fun _ => PageData.mk ([] : List Nat) (some ⟨9, 2, 1⟩)) 7 3 [5] 2 = ([5], 3) := by
  constructor
  · have h := C5_pagination_aggregation.2.1 Nat (fun _ => PageData.mk [] none) 6 3 [5] 2 rfl
    simpa using h
  · exact C5_pagination_aggregation.2.2 Nat (fun _ => PageData.mk [] (some ⟨9, 2, 1⟩)) 6 3 [5] 2 rfl

/-! ## Claim C6 -/

/-- **C6.**  For every server behavior — pager totals inconsistent or
arbitrarily large included — the aggregation loop terminates (it is a
total function) and issues at most 100 page requests. -/
theorem C6_page_request_cap (α : Type) (server : Nat → PageData α) :
    (fetchAllPages server).2 ≤ 100 := by
  have h := fetchPages_count_le server 100 1 [] 0
  simpa [fetchAllPages] using h

/-! ## Claim C7 -/

/-- **C7.**  When both a (truthy) module id and a status other than
`'all'` are supplied, each of the three listing fetchers aggregates all
pages under the `byModule` selector and then returns exactly the
aggregated records whose status equals the requested one — a local
post-hoc filter that removes other statuses and adds nothing. -/
theorem C7_module_status_filter (m : Nat) (s : String)
    (hm : m ≠ 0) (hs1 : s ≠ "") (hs2 : s ≠ "all") :
    (∀ server : String → Nat → Nat → PageData BugRec,
      getProductBugs server (some s) (some m) =
        ((fetchAllPages fun p => server "byModule" m p).1.filter fun b => b.status == s) ∧
      ∀ b : BugRec, b ∈ getProductBugs server (some s) (some m) ↔
        b ∈ (fetchAllPages fun p => server "byModule" m p).1 ∧ b.status = s) ∧
    (∀ server : String → Nat → Nat → PageData CaseRec,
      getProductTestCases server (some s) (some m) =
        ((fetchAllPages fun p => server "byModule" m p).1.filter fun c => c.status == s) ∧
      ∀ c : CaseRec, c ∈ getProductTestCases server (some s) (some m) ↔
        c ∈ (fetchAllPages fun p => server "byModule" m p).1 ∧ c.status = s) ∧
    (∀ server : String → Nat → Nat → PageData Story,
      getProductStories server (some s) (some m) =
        ((fetchAllPages fun p => server "byModule" m p).1.filter fun st => st.status == s) ∧
      ∀ st : Story, st ∈ getProductStories server (some s) (some m) ↔
        st ∈ (fetchAllPages fun p => server "byModule" m p).1 ∧ st.status = s) := by
  have hT : jsTruthyNat (some m) = true := by simp [jsTruthyNat, hm]
  have hS : jsTruthyStr (some s) = true := by simp [jsTruthyStr, hs1]
  have hall : (Option.getD (some s) "" == "all") = false := by
    simp only [Option.getD_some]
    exact beq_eq_false_iff_ne.mpr hs2
  refine ⟨fun server => ?_, fun server => ?_, fun server => ?_⟩
  · have heq : getProductBugs server (some s) (some m) =
        ((fetchAllPages fun p => server "byModule" m p).1.filter fun b => b.status == s) := by
      unfold getProductBugs
      rw [bugBrowseSelector_module (some s) hm]
      simp [hT, hS, hall, hs2]
    refine ⟨heq, fun b => ?_⟩
    rw [heq]
    simp [List.mem_filter]
  · have heq : getProductTestCases server (some s) (some m) =
        ((fetchAllPages fun p => server "byModule" m p).1.filter fun c => c.status == s) := by
      unfold getProductTestCases
      rw [bugBrowseSelector_module (some s) hm]
      simp [hT, hS, hall, hs2]
    refine ⟨heq, fun c => ?_⟩
    rw [heq]
    simp [List.mem_filter]
  · have heq : getProductStories server (some s) (some m) =
        ((fetchAllPages fun p => server "byModule" m p).1.filter fun st => st.status == s) := by
      unfold getProductStories
      rw [storyBrowseSelector_module (some s) hm]
      simp [hT, hS, hall, hs2]
    refine ⟨heq, fun st => ?_⟩
    rw [heq]
    simp [List.mem_filter]

/-- **C7, witness.**  A one-page module listing with statuses
`resolved`/`active` filtered for `resolved`. -/
theorem C7_module_status_filter_witness :
    getProductBugs
        (fun _ _ _ => PageData.mk [⟨1, "resolved"⟩, ⟨2, "active"⟩] none)
        (some "resolved") (some 5) = [⟨1, "resolved"⟩] := by
  have h := ((C7_module_status_filter 5 "resolved" (by decide) (by decide) (by decide)).1
    (fun _ _ _ => PageData.mk [⟨1, "resolved"⟩, ⟨2, "active"⟩] none)).1
  rw [h]
  decide

/-! ## Claim C8 -/

/-- **C8.**  In both parallel and serial mode the batch returns exactly
one result per input URL; result `i` is exactly the per-item outcome for
input URL `i` (so order is preserved and no item's failure or timeout
can affect any other item's result), it carries its own input URL, and
an item whose transfer never settles within the timeout yields a
failure result tagged with the timeout message. -/
theorem C8_image_batch (env : String → Transfer) (urls : List String) (par : Bool) (t : Nat) :
    (downloadImages env urls par t).length = urls.length ∧
    ∀ (i : Nat) (u : String), urls[i]? = some u →
      (downloadImages env urls par t)[i]? = some (downloadImageWithTimeout env u t) ∧
      (downloadImageWithTimeout env u t).url = u ∧
      (env u = Transfer.never →
        (downloadImageWithTimeout env u t).success = false ∧
        (downloadImageWithTimeout env u t).error =
          some ("下载超时（" ++ toString t ++ "ms）")) := by
  rw [downloadImages_eq_map]
  refine ⟨List.length_map _ _, ?_⟩
  intro i u hu
  refine ⟨?_, downloadImageWithTimeout_url env u t, ?_⟩
  · rw [List.getElem?_map, hu]
    rfl
  · intro hnever
    simp only [downloadImageWithTimeout, hnever]
    exact ⟨rfl, rfl⟩

/-- **C8, witness.**  Three URLs, the middle transfer never settles:
slot 1 of the result array is the timeout failure for `u2`. -/
theorem C8_image_batch_witness :
    (downloadImages envW ["u1", "u2", "u3"] true 15000)[1]? =
      some (downloadImageWithTimeout envW "u2" 15000) ∧
    (downloadImageWithTimeout envW "u2" 15000).url = "u2" ∧
    (downloadImageWithTimeout envW "u2" 15000).success = false ∧
    (downloadImageWithTimeout envW "u2" 15000).error =
      some ("下载超时（" ++ toString 15000 ++ "ms）") := by
  have h := (C8_image_batch envW ["u1", "u2", "u3"] true 15000).2 1 "u2" (by decide)
  have h3 := h.2.2 (by decide)
  exact ⟨h.1, h.2.1, h3.1, h3.2⟩

/-! ## Claim C9 -/

/-- **C9, counterexample.**  On the keyword `a--b` the maximal run of
letters/digits/hyphens is `a--b` itself, but the code's regex
`[a-z0-9]+(?:-[a-z0-9]+)*` refuses the double hyphen and produces the
two tokens `a` and `b`. -/
theorem C9_tokenizer_counterexample :
    splitKeywords "a--b" = ["a", "b"] ∧
    specRunTokens "a--b" = ["a--b"] ∧
    splitKeywords "a--b" ≠ specRunTokens "a--b" := by
  refine ⟨by decide, by decide, by decide⟩

/-- **C9, amended.**  `splitKeywords` always returns at least one
token; if the keyword has no ASCII alphanumeric and no CJK character it
returns exactly the lower-cased keyword; every token is either an
English token matching `[a-z0-9]+(?:-[a-z0-9]+)*` (runs of ASCII
letters/digits joined by single hyphens flanked by alphanumerics,
case-folded) occurring contiguously in the lower-cased keyword, or a
single CJK character of the lower-cased keyword, or the whole
lower-cased keyword (fallback); every CJK character of the keyword
yields its own single-character token; and the English extraction is
complete and maximal: the lower-cased keyword decomposes into
alternating inert gaps and exactly the extracted English tokens in
order, where no gap contains an alphanumeric character (so no match is
dropped or truncated — every maximal match is extracted whole), and no
gap standing between two tokens is empty or a single hyphen (either
would have made the two tokens one longer match), and each extracted
match is among the returned tokens. -/
theorem C9_tokenizer_amended (k : String) :
    splitKeywords k ≠ [] ∧
    ((∀ c ∈ k.data, isAsciiAlnumAny c = false ∧ isCJKChar c = false) →
      splitKeywords k = [lowerStr k]) ∧
    (∀ t ∈ splitKeywords k,
      (patOk t.data = true ∧ hasSub (lowerStr k).data t.data = true) ∨
      (∃ c, t = String.mk [c] ∧ isCJKChar c = true ∧ c ∈ (lowerStr k).data) ∨
      t = lowerStr k) ∧
    (∀ c ∈ (lowerStr k).data, isCJKChar c = true → String.mk [c] ∈ splitKeywords k) ∧
    (∃ parts last,
      (lowerStr k).data = glue parts last ∧
      scanEnglish (lowerStr k).data [] = parts.map Prod.snd ∧
      (∀ p ∈ parts, patOk p.2 = true) ∧
      (∀ p ∈ parts, ∀ c ∈ p.1, isAlnumLower c = false) ∧
      (∀ c ∈ last, isAlnumLower c = false) ∧
      (∀ p ∈ parts.tail, p.1 ≠ [] ∧ p.1 ≠ ['-']) ∧
      (∀ p ∈ parts, String.mk p.2 ∈ splitKeywords k)) := by
  refine ⟨splitKeywords_ne_nil k, splitKeywords_fallback k, ?_, ?_, ?_⟩
  · intro t ht
    rcases splitKeywords_classify k t ht with ⟨l, rfl, hl⟩ | ⟨c, rfl, hc, hcjk⟩ | rfl
    · left
      refine ⟨scanEnglish_patOk _ [] (Or.inl rfl) l hl, ?_⟩
      simpa using scanEnglish_sub (lowerStr k).data [] l hl
    · right; left
      exact ⟨c, rfl, hcjk, hc⟩
    · right; right; rfl
  · intro c hc hcjk
    exact mem_splitKeywords_of_cjk hc hcjk
  · obtain ⟨parts, last, h1, h2, h3, h4, h5, h6⟩ := scanEnglish_decomposition (lowerStr k).data
    refine ⟨parts, last, h1, h2, h3, h4, h5, h6, ?_⟩
    intro p hp
    apply mem_splitKeywords_of_english
    rw [h2]
    exact List.mem_map_of_mem Prod.snd hp

/-- **C9, witness.**  The fallback on `!!!`, the classification of the
token `a-b` of `x a-b 好`, and the CJK token `好`. -/
theorem C9_tokenizer_witness :
    splitKeywords "!!!" = [lowerStr "!!!"] ∧
    ((patOk "a-b".data = true ∧ hasSub (lowerStr "x a-b 好").data "a-b".data = true) ∨
      (∃ c, "a-b" = String.mk [c] ∧ isCJKChar c = true ∧ c ∈ (lowerStr "x a-b 好").data) ∨
      "a-b" = lowerStr "x a-b 好") ∧
    String.mk ['好'] ∈ splitKeywords "x a-b 好" :=
  ⟨(C9_tokenizer_amended "!!!").2.1 (by decide),
    (C9_tokenizer_amended "x a-b 好").2.2.1 "a-b" (by decide),
    (C9_tokenizer_amended "x a-b 好").2.2.2.1 '好' (by decide) (by decide)⟩

/-! ## Claim C10 -/

/-- **C10.**  With no module id, the story fetch maps every status
argument — `'all'`, `'active'`, `'draft'`, `'closed'`, `'changed'`,
anything else, or none — to the single selector `'unclosed'` and applies
no local status filter, so the result is the same for every status
value and equals the raw `'unclosed'` aggregation; in particular
requesting `'closed'` stories queries only unclosed ones. -/
theorem C10_story_status_unclosed (server : String → Nat → Nat → PageData Story)
    (s1 s2 : Option String) :
    getProductStories server s1 none = getProductStories server s2 none ∧
    getProductStories server (some "closed") none =
      (fetchAllPages fun p => server "unclosed" 0 p).1 := by
  have key : ∀ s : Option String,
      getProductStories server s none = (fetchAllPages fun p => server "unclosed" 0 p).1 := by
    intro s
    unfold getProductStories
    rw [storyBrowseSelector_none]
    simp [jsTruthyNat]
  exact ⟨(key s1).trans (key s2).symm, key (some "closed")⟩
